import Mathlib

/-!
# Semantic tokens of the Zen-C language server (`src/lsp/lsp_semantic.c`)

A shallow embedding of the token buffer, the AST walker, the ordering /
deduplication pass and the delta encoder of `lsp_semantic_tokens_full`,
followed by the properties of the specification that are settled on it.

Conventions of the embedding

* C `int` values are integers; every C subtraction and multiplication of the
  source is wrapped to 32 bits by `wrap32` (two's complement).
* A pointer to an AST node is an `ASTNode`; the NULL pointer is the
  constructor `ASTNode.null`.  Every node carries its `next` sibling pointer.
* The array `b->tokens[0 .. b->count)` is the list `TokenBuilder.tokens`; the
  field `count` is its length.
* `qsort` belongs to the C library.  It is a parameter of the pipeline and is
  constrained only by the contract of the C standard (`IsQsortResult`): the
  array afterwards is a rearrangement of the array before and is in
  non-decreasing order for the comparator; the order of elements that compare
  equal is unspecified.
-/

namespace ZenC.LspSemantic

/-! ## Machine integers -/

/-- Two's complement wrap of an integer to the range of a 32-bit C `int`. -/
def wrap32 (x : Int) : Int := (x + 2147483648) % 4294967296 - 2147483648

/-! ## Legend indices (lines 7-21) -/

def TOKEN_TYPE_VARIABLE : Int := 0
def TOKEN_TYPE_FUNCTION : Int := 1
def TOKEN_TYPE_STRUCT : Int := 2
def TOKEN_TYPE_KEYWORD : Int := 3
def TOKEN_TYPE_STRING : Int := 4
def TOKEN_TYPE_NUMBER : Int := 5
def TOKEN_TYPE_COMMENT : Int := 6
def TOKEN_TYPE_TYPE : Int := 7
def TOKEN_TYPE_ENUM : Int := 8
def TOKEN_TYPE_MEMBER : Int := 9
def TOKEN_TYPE_OPERATOR : Int := 10
def TOKEN_TYPE_PARAMETER : Int := 11
def TOKEN_TYPE_MACRO : Int := 12
def TOKEN_TYPE_TYPE_PARAMETER : Int := 13

/-! ## Token buffer (lines 23-69) -/

/-- One classified occurrence, the `SemanticToken` struct of the source. -/
structure SemanticToken where
  line : Int
  col : Int
  length : Int
  token_type : Int
  token_modifiers : Int
  deriving DecidableEq, Repr

/-- The `TokenBuilder` struct: `tokens` holds the `count` entries written so
far, `capacity` is the allocated size. -/
structure TokenBuilder where
  tokens : List SemanticToken
  capacity : Int
  deriving DecidableEq, Repr

/-- The field `b->count`: number of entries written so far. -/
def TokenBuilder.count (b : TokenBuilder) : Int := b.tokens.length

/-- Source `builder_init`: empty buffer of capacity 4096. -/
def builder_init : TokenBuilder := { tokens := [], capacity := 4096 }

/-- Source `builder_push`: drops the entry when `line < 0 || col < 0`, doubles
the capacity when the buffer is full, then writes the entry at index `count`. -/
def builder_push (b : TokenBuilder) (line col length type modifiers : Int) : TokenBuilder :=
  if line < 0 ∨ col < 0 then b
  else
    let capacity := if b.count ≥ b.capacity then wrap32 (b.capacity * 2) else b.capacity
    { tokens := b.tokens ++ [⟨line, col, length, type, modifiers⟩], capacity := capacity }

/-- Source `compare_tokens`: the comparator handed to `qsort`. -/
def compare_tokens (ta tb : SemanticToken) : Int :=
  if ta.line ≠ tb.line then wrap32 (ta.line - tb.line)
  else wrap32 (ta.col - tb.col)

/-! ## The AST as the walker reads it -/

/-- Kind of a lexer token; only the sentinel `TOK_EOF` is told apart. -/
inductive TokenType where
  | TOK_EOF
  | TOK_OTHER (id : Nat)
  deriving DecidableEq, Repr

/-- The lexer token stored in a node: its kind and its 1-based position. -/
structure Token where
  type : TokenType
  line : Int
  col : Int
  len : Int
  deriving DecidableEq, Repr

/-- The field `literal.type_kind`. -/
inductive LiteralKind where
  | LITERAL_INT
  | LITERAL_FLOAT
  | LITERAL_STRING
  | LITERAL_CHAR
  | LITERAL_OTHER (id : Nat)
  deriving DecidableEq, Repr

/-- A pointer to an `ASTNode`.  `null` is the NULL pointer; every other
constructor is a node of the kind it is named after, with its own token, its
`next` sibling pointer and the members of the union that `traverse_node` reads
for that kind.  `NODE_OTHER` is a node of any kind that `traverse_node` has no
case for, with up to three child pointers. -/
inductive ASTNode where
  | null
  | NODE_ROOT (token : Token) (next : ASTNode) (children : ASTNode)
  | NODE_FUNCTION (token : Token) (next : ASTNode) (arg_count : Int) (body : ASTNode)
  | NODE_VAR_DECL (token : Token) (next : ASTNode) (init_expr : ASTNode)
  | NODE_BLOCK (token : Token) (next : ASTNode) (statements : ASTNode)
  | NODE_RETURN (token : Token) (next : ASTNode) (value : ASTNode)
  | NODE_EXPR_BINARY (token : Token) (next : ASTNode) (left right : ASTNode)
  | NODE_EXPR_CALL (token : Token) (next : ASTNode) (callee args : ASTNode)
  | NODE_CONST (token : Token) (next : ASTNode) (init_expr : ASTNode)
  | NODE_TYPE_ALIAS (token : Token) (next : ASTNode)
  | NODE_EXPR_VAR (token : Token) (next : ASTNode)
  | NODE_STRUCT (token : Token) (next : ASTNode) (fields : ASTNode)
  | NODE_FIELD (token : Token) (next : ASTNode)
  | NODE_EXPR_MEMBER (token : Token) (next : ASTNode) (target : ASTNode)
  | NODE_EXPR_LITERAL (token : Token) (next : ASTNode) (type_kind : LiteralKind)
  | NODE_TRAIT (token : Token) (next : ASTNode) (methods : ASTNode)
  | NODE_IMPL (token : Token) (next : ASTNode) (methods : ASTNode)
  | NODE_IMPL_TRAIT (token : Token) (next : ASTNode) (methods : ASTNode)
  | NODE_ENUM (token : Token) (next : ASTNode) (variants : ASTNode)
  | NODE_ENUM_VARIANT (token : Token) (next : ASTNode) (has_payload : Bool)
  | NODE_DESTRUCT_VAR (token : Token) (next : ASTNode) (init_expr else_block : ASTNode)
  | NODE_MATCH_CASE (token : Token) (next : ASTNode) (guard body : ASTNode)
  | NODE_LAMBDA (token : Token) (next : ASTNode) (body : ASTNode)
  | NODE_FOR_RANGE (token : Token) (next : ASTNode) (start stop body : ASTNode)
  | NODE_OTHER (kind : Nat) (token : Token) (next : ASTNode) (child0 child1 child2 : ASTNode)
  deriving DecidableEq, Repr

/-- The statement that the cases of `traverse_node` for a node with one fixed
classification share:
`if (node->token.type != TOK_EOF) builder_push(b, node->token.line - 1,
node->token.col - 1, node->token.len, type, modifiers);`. -/
def push_own (b : TokenBuilder) (token : Token) (type modifiers : Int) : TokenBuilder :=
  if token.type ≠ TokenType.TOK_EOF then
    builder_push b (wrap32 (token.line - 1)) (wrap32 (token.col - 1)) token.len type modifiers
  else b

/-- The walker.  `walk node false b` is the buffer after `traverse_node(b, node)`;
`walk node true b` is the buffer after the loop
`while (node) { traverse_node(b, node); node = node->next; }`
that the source runs over statement lists, argument lists and the outermost
chain.  Both are one structural recursion: in every case the first lines are
the body of the matching `case` of `traverse_node`, and the last line follows
`next` when the call stands for the loop.  The two loops over the attribute
list of a function and the empty `if` on a variant payload write nothing. -/
def walk : ASTNode → Bool → TokenBuilder → TokenBuilder
  | .null, _, b => b
  | .NODE_FUNCTION token next _ body, loop, b =>
      let b1 := walk body false (push_own b token TOKEN_TYPE_FUNCTION 1)
      if loop then walk next true b1 else b1
  | .NODE_VAR_DECL token next init_expr, loop, b =>
      let b1 := walk init_expr false (push_own b token TOKEN_TYPE_VARIABLE 0)
      if loop then walk next true b1 else b1
  | .NODE_BLOCK _ next statements, loop, b =>
      let b1 := walk statements true b
      if loop then walk next true b1 else b1
  | .NODE_RETURN _ next value, loop, b =>
      let b1 := walk value false b
      if loop then walk next true b1 else b1
  | .NODE_EXPR_BINARY _ next left right, loop, b =>
      let b1 := walk right false (walk left false b)
      if loop then walk next true b1 else b1
  | .NODE_EXPR_CALL _ next callee args, loop, b =>
      let b1 := walk args true (walk callee false b)
      if loop then walk next true b1 else b1
  | .NODE_CONST token next init_expr, loop, b =>
      let b1 := walk init_expr false (push_own b token TOKEN_TYPE_VARIABLE 2)
      if loop then walk next true b1 else b1
  | .NODE_TYPE_ALIAS token next, loop, b =>
      let b1 := push_own b token TOKEN_TYPE_TYPE 0
      if loop then walk next true b1 else b1
  | .NODE_EXPR_VAR token next, loop, b =>
      let b1 := push_own b token TOKEN_TYPE_VARIABLE 0
      if loop then walk next true b1 else b1
  | .NODE_STRUCT token next fields, loop, b =>
      let b1 := walk fields false (push_own b token TOKEN_TYPE_STRUCT 0)
      if loop then walk next true b1 else b1
  | .NODE_FIELD token next, loop, b =>
      let b1 := push_own b token TOKEN_TYPE_MEMBER 0
      if loop then walk next true b1 else b1
  | .NODE_EXPR_MEMBER token next target, loop, b =>
      let b1 := push_own (walk target false b) token TOKEN_TYPE_MEMBER 0
      if loop then walk next true b1 else b1
  | .NODE_EXPR_LITERAL token next type_kind, loop, b =>
      let b1 :=
        if token.type ≠ TokenType.TOK_EOF then
          if type_kind = LiteralKind.LITERAL_STRING then
            builder_push b (wrap32 (token.line - 1)) (wrap32 (token.col - 1)) token.len
              TOKEN_TYPE_STRING 0
          else if type_kind = LiteralKind.LITERAL_INT ∨ type_kind = LiteralKind.LITERAL_FLOAT then
            builder_push b (wrap32 (token.line - 1)) (wrap32 (token.col - 1)) token.len
              TOKEN_TYPE_NUMBER 0
          else if type_kind = LiteralKind.LITERAL_CHAR then
            builder_push b (wrap32 (token.line - 1)) (wrap32 (token.col - 1)) token.len
              TOKEN_TYPE_STRING 0
          else b
        else b
      if loop then walk next true b1 else b1
  | .NODE_TRAIT token next methods, loop, b =>
      let b1 := walk methods false (push_own b token TOKEN_TYPE_STRUCT 0)
      if loop then walk next true b1 else b1
  | .NODE_IMPL token next methods, loop, b =>
      let b1 := walk methods false (push_own b token TOKEN_TYPE_STRUCT 0)
      if loop then walk next true b1 else b1
  | .NODE_IMPL_TRAIT token next methods, loop, b =>
      let b1 := walk methods false (push_own b token TOKEN_TYPE_STRUCT 0)
      if loop then walk next true b1 else b1
  | .NODE_ENUM token next variants, loop, b =>
      let b1 := walk variants false (push_own b token TOKEN_TYPE_ENUM 0)
      if loop then walk next true b1 else b1
  | .NODE_ENUM_VARIANT token next _, loop, b =>
      let b1 := push_own b token TOKEN_TYPE_ENUM 0
      if loop then walk next true b1 else b1
  | .NODE_DESTRUCT_VAR _ next init_expr else_block, loop, b =>
      let b1 := walk else_block false (walk init_expr false b)
      if loop then walk next true b1 else b1
  | .NODE_MATCH_CASE _ next guard body, loop, b =>
      let b1 := walk body false (walk guard false b)
      if loop then walk next true b1 else b1
  | .NODE_LAMBDA _ next body, loop, b =>
      let b1 := walk body false b
      if loop then walk next true b1 else b1
  | .NODE_FOR_RANGE _ next start stop body, loop, b =>
      let b1 := walk body false (walk stop false (walk start false b))
      if loop then walk next true b1 else b1
  | .NODE_ROOT _ next children, loop, b =>
      let b1 := walk children false b
      if loop then walk next true b1 else b1
  | .NODE_OTHER _ _ next _ _ _, loop, b =>
      if loop then walk next true b else b

/-- Source `traverse_node(b, node)`. -/
def traverse_node (b : TokenBuilder) (node : ASTNode) : TokenBuilder := walk node false b

/-- The loop `while (p) { traverse_node(b, p); p = p->next; }` started at `p = node`. -/
def traverse_chain (b : TokenBuilder) (node : ASTNode) : TokenBuilder := walk node true b

/-! ## Ordering, deduplication and delta encoding (lines 305-360) -/

/-- Contract of the C library `qsort` for the comparator `compare_tokens`:
the array after the call is a rearrangement of the array before it and every
earlier element compares less than or equal to every later one.  Nothing is
promised on the relative order of elements that compare equal. -/
def IsQsortResult (before after : List SemanticToken) : Prop :=
  after.Perm before ∧ after.Pairwise (fun a b => compare_tokens a b ≤ 0)

instance (before after : List SemanticToken) : Decidable (IsQsortResult before after) := by
  unfold IsQsortResult; infer_instance

/-- The test of line 335 for the entry `t` at index `i`, where `prev` is the
array entry at index `i - 1` (`none` when `i = 0`): the entry is skipped when
its line and column equal those of the entry before it. -/
def skipped (prev : Option SemanticToken) (t : SemanticToken) : Bool :=
  match prev with
  | none => false
  | some p => decide (t.line = p.line ∧ t.col = p.col)

/-- The encoder loop of lines 331-351 over the array entries from index `i`
on: `prev` is the entry at index `i - 1`, `prev_line` and `prev_col` are the
two loop variables, the result is what is appended to the `data` array. -/
def encode_loop : Option SemanticToken → Int → Int → List SemanticToken → List Int
  | _, _, _, [] => []
  | prev, prev_line, prev_col, t :: rest =>
      if skipped prev t then encode_loop (some t) prev_line prev_col rest
      else
        let delta_line := wrap32 (t.line - prev_line)
        let delta_col := if delta_line = 0 then wrap32 (t.col - prev_col) else t.col
        delta_line :: delta_col :: t.length :: t.token_type :: t.token_modifiers ::
          encode_loop (some t) t.line t.col rest

/-- The array entries that the encoder loop does not skip, in array order:
the tokens that survive deduplication. -/
def survivors : Option SemanticToken → List SemanticToken → List SemanticToken
  | _, [] => []
  | prev, t :: rest =>
      if skipped prev t then survivors (some t) rest else t :: survivors (some t) rest

/-- Lines 313-321: the buffer after `builder_init` and the loop over the
outermost `next` chain starting at `pf->ast`. -/
def collect (ast : ASTNode) : TokenBuilder := traverse_chain builder_init ast

/-- The array `b.tokens[0 .. b.count)` after the call of `qsort` (line 323). -/
def sorted_tokens (qsort : List SemanticToken → List SemanticToken) (ast : ASTNode) :
    List SemanticToken :=
  qsort (collect ast).tokens

/-- Lines 313-351: the numbers appended to the JSON array `data` for a
document whose AST pointer is `ast`. -/
def semantic_tokens_data (qsort : List SemanticToken → List SemanticToken) (ast : ASTNode) :
    List Int :=
  encode_loop none 0 0 (sorted_tokens qsort ast)

/-- The record `ProjectFile`, of which only the field `ast` is read. -/
structure ProjectFile where
  ast : ASTNode
  deriving DecidableEq, Repr

/-- Modelled from the spec: the JSON library (`cJSON_CreateObject`,
`cJSON_AddItemToArray`, `cJSON_PrintUnformatted`) is not part of the file; the
payload is the flat integer sequence wrapped as `{"data":[d0,d1,...]}` without
white space, the empty sequence giving `{"data":[]}`. -/
def render_data (data : List Int) : String :=
  "\x7b\"data\":[" ++ ",".intercalate (data.map toString) ++ "]\x7d"

/-- Source `lsp_semantic_tokens_full`.  The lookup `lsp_project_get_file` and
`qsort` are parameters; a failed lookup is `none`, a missing AST is the NULL
pointer. -/
def lsp_semantic_tokens_full (lsp_project_get_file : String → Option ProjectFile)
    (qsort : List SemanticToken → List SemanticToken) (uri : String) : String :=
  match lsp_project_get_file uri with
  | none => "\x7b\"data\":[]\x7d"
  | some pf =>
      if pf.ast = ASTNode.null then "\x7b\"data\":[]\x7d"
      else render_data (semantic_tokens_data qsort pf.ast)

/-! ## Reading the output back, as the specification words it -/

/-- The quintuples of a flat `data` sequence, five numbers at a time. -/
def quintuples : List Int → List (Int × Int × Int × Int × Int)
  | d0 :: d1 :: d2 :: d3 :: d4 :: rest => (d0, d1, d2, d3, d4) :: quintuples rest
  | _ => []

/-- Decoder of the specification (section 8, item 4), from the position
`(line, col)`: `line += deltaLine; col = deltaLine == 0 ? col + deltaStartChar
: deltaStartChar`, keeping length, type and modifiers. -/
def spec_decode : Int → Int → List Int → List SemanticToken
  | line, col, dl :: dc :: len :: ty :: mods :: rest =>
      let line1 := line + dl
      let col1 := if dl = 0 then col + dc else dc
      ⟨line1, col1, len, ty, mods⟩ :: spec_decode line1 col1 rest
  | _, _, _ => []

/-- Delta encoder of the specification (section 4.4) over a list of tokens:
`deltaLine = line_i - prevLine`, `deltaStartChar = line_i == prevLine ?
column_i - prevCol : column_i`, then `prevLine, prevCol <- line_i, column_i`. -/
def spec_delta_encode : Int → Int → List SemanticToken → List Int
  | _, _, [] => []
  | prevLine, prevCol, t :: rest =>
      (t.line - prevLine) :: (if t.line = prevLine then t.col - prevCol else t.col) ::
        t.length :: t.token_type :: t.token_modifiers :: spec_delta_encode t.line t.col rest

/-- Strict lexicographic order on `(line, column)`. -/
def pos_lt (a b : SemanticToken) : Prop :=
  a.line < b.line ∨ (a.line = b.line ∧ a.col < b.col)

instance (a b : SemanticToken) : Decidable (pos_lt a b) := by
  unfold pos_lt; infer_instance

/-- Lexicographic order on `(line, column)`. -/
def pos_le (a b : SemanticToken) : Prop :=
  a.line < b.line ∨ (a.line = b.line ∧ a.col ≤ b.col)

instance (a b : SemanticToken) : Decidable (pos_le a b) := by
  unfold pos_le; infer_instance

/-- A token as `builder_push` stores it when called with two C `int`
positions: line and column are non-negative and fit 32 bits. -/
def valid_pos (t : SemanticToken) : Prop :=
  0 ≤ t.line ∧ t.line < 2147483648 ∧ 0 ≤ t.col ∧ t.col < 2147483648

instance (t : SemanticToken) : Decidable (valid_pos t) := by
  unfold valid_pos; infer_instance

/-! ## Auxiliary facts -/

/-- Every stored token has a valid position. -/
def buffer_valid (b : TokenBuilder) : Prop := ∀ t ∈ b.tokens, valid_pos t

/-- Tokens at the position `(line, col)`. -/
def same_pos (line col : Int) (t : SemanticToken) : Bool :=
  decide (t.line = line ∧ t.col = col)

/-- Whether the array entry before the current one lies at `(line, col)`. -/
def prev_at (prev : Option SemanticToken) (line col : Int) : Bool :=
  match prev with
  | none => false
  | some q => same_pos line col q

/-! ## Example sorts and documents -/

/-- A stable sort for the comparator: among tokens that compare equal the one
emitted first comes first. -/
def stable_qsort (ts : List SemanticToken) : List SemanticToken :=
  List.insertionSort (fun a b => compare_tokens a b ≤ 0) ts

/-- A sort for the comparator that is not stable: among tokens that compare
equal the one emitted last comes first. -/
def reversing_qsort (ts : List SemanticToken) : List SemanticToken :=
  List.insertionSort (fun a b => compare_tokens a b ≤ 0) ts.reverse

/-- A lexer token that is not the sentinel, at a 1-based position. -/
def tok (line col len : Int) : Token := ⟨TokenType.TOK_OTHER 0, line, col, len⟩

/-- A chain of three top-level nodes: a binary expression whose operands are
a variable at lexer position (3,9) and an integer literal at (3,2), a type
alias at (1,1), and a field whose lexer line is 0 (no source location). -/
def doc_mixed : ASTNode :=
  .NODE_EXPR_BINARY (tok 3 5 1)
    (.NODE_TYPE_ALIAS (tok 1 1 2) (.NODE_FIELD (tok 0 4 1) .null))
    (.NODE_EXPR_VAR (tok 3 9 1) .null)
    (.NODE_EXPR_LITERAL (tok 3 2 1) .null LiteralKind.LITERAL_INT)

/-- A variable declaration whose own span, of length 3, starts at lexer
position (1,1) and whose initializer is an integer literal with a span of
length 1 at the same position. -/
def doc_collide : ASTNode :=
  .NODE_VAR_DECL (tok 1 1 3) .null (.NODE_EXPR_LITERAL (tok 1 1 1) .null LiteralKind.LITERAL_INT)

/-- A function declaration whose own span is the RawToken (1, 0, length 4)
and whose body is a block holding one variable declaration at (2, 2, length 1)
with a variable reference at (2, 6, length 1) as initializer. -/
def doc_nested : ASTNode :=
  .NODE_FUNCTION (tok 2 1 4) .null 0
    (.NODE_BLOCK (tok 2 6 1) .null
      (.NODE_VAR_DECL (tok 3 3 1) .null (.NODE_EXPR_VAR (tok 3 7 1) .null)))

/-- A function declaration whose own span is the RawToken (1, 0, length 4)
and whose body is a block without statements. -/
def doc_single : ASTNode :=
  .NODE_FUNCTION (tok 2 1 4) .null 0 (.NODE_BLOCK (tok 2 6 1) .null .null)

/-- The expression `a.b`: a member access whose member token is the RawToken
(3, 2, length 1) and whose target is the variable reference `a` at
(3, 0, length 1). -/
def doc_member : ASTNode :=
  .NODE_EXPR_MEMBER (tok 4 3 1) .null (.NODE_EXPR_VAR (tok 4 1 1) .null)

/-- A document without highlightable nodes: a block holding a return
statement without value, followed by a node of a kind the walker has no case
for. -/
def doc_silent : ASTNode :=
  .NODE_BLOCK (tok 1 1 1) .null
    (.NODE_RETURN (tok 2 1 6) (.NODE_OTHER 99 (tok 3 1 2) .null .null .null .null) .null)

/-- A project index that knows two documents, one of them not parsed yet. -/
def example_project (uri : String) : Option ProjectFile :=
  if uri = "file:///silent.zc" then some ⟨doc_silent⟩
  else if uri = "file:///pending.zc" then some ⟨.null⟩
  else none

/-! ## Sibling chains, emitted tokens and the specification's deduplication -/

/-- The field `node->next` of a node; the NULL pointer has none. -/
def ASTNode.next : ASTNode → ASTNode
  | .null => .null
  | .NODE_ROOT _ next _ => next
  | .NODE_FUNCTION _ next _ _ => next
  | .NODE_VAR_DECL _ next _ => next
  | .NODE_BLOCK _ next _ => next
  | .NODE_RETURN _ next _ => next
  | .NODE_EXPR_BINARY _ next _ _ => next
  | .NODE_EXPR_CALL _ next _ _ => next
  | .NODE_CONST _ next _ => next
  | .NODE_TYPE_ALIAS _ next => next
  | .NODE_EXPR_VAR _ next => next
  | .NODE_STRUCT _ next _ => next
  | .NODE_FIELD _ next => next
  | .NODE_EXPR_MEMBER _ next _ => next
  | .NODE_EXPR_LITERAL _ next _ => next
  | .NODE_TRAIT _ next _ => next
  | .NODE_IMPL _ next _ => next
  | .NODE_IMPL_TRAIT _ next _ => next
  | .NODE_ENUM _ next _ => next
  | .NODE_ENUM_VARIANT _ next _ => next
  | .NODE_DESTRUCT_VAR _ next _ _ => next
  | .NODE_MATCH_CASE _ next _ _ => next
  | .NODE_LAMBDA _ next _ => next
  | .NODE_FOR_RANGE _ next _ _ _ => next
  | .NODE_OTHER _ _ next _ _ _ => next

/-- The nodes reached from a pointer by following `next`, in chain order. -/
def chain : ASTNode → List ASTNode
  | .null => []
  | n@(.NODE_ROOT _ next _) => n :: chain next
  | n@(.NODE_FUNCTION _ next _ _) => n :: chain next
  | n@(.NODE_VAR_DECL _ next _) => n :: chain next
  | n@(.NODE_BLOCK _ next _) => n :: chain next
  | n@(.NODE_RETURN _ next _) => n :: chain next
  | n@(.NODE_EXPR_BINARY _ next _ _) => n :: chain next
  | n@(.NODE_EXPR_CALL _ next _ _) => n :: chain next
  | n@(.NODE_CONST _ next _) => n :: chain next
  | n@(.NODE_TYPE_ALIAS _ next) => n :: chain next
  | n@(.NODE_EXPR_VAR _ next) => n :: chain next
  | n@(.NODE_STRUCT _ next _) => n :: chain next
  | n@(.NODE_FIELD _ next) => n :: chain next
  | n@(.NODE_EXPR_MEMBER _ next _) => n :: chain next
  | n@(.NODE_EXPR_LITERAL _ next _) => n :: chain next
  | n@(.NODE_TRAIT _ next _) => n :: chain next
  | n@(.NODE_IMPL _ next _) => n :: chain next
  | n@(.NODE_IMPL_TRAIT _ next _) => n :: chain next
  | n@(.NODE_ENUM _ next _) => n :: chain next
  | n@(.NODE_ENUM_VARIANT _ next _) => n :: chain next
  | n@(.NODE_DESTRUCT_VAR _ next _ _) => n :: chain next
  | n@(.NODE_MATCH_CASE _ next _ _) => n :: chain next
  | n@(.NODE_LAMBDA _ next _) => n :: chain next
  | n@(.NODE_FOR_RANGE _ next _ _ _) => n :: chain next
  | n@(.NODE_OTHER _ _ next _ _ _) => n :: chain next

/-- The tokens that `traverse_node(b, node)` stores when it starts from the
empty buffer of `builder_init`. -/
def emitted (node : ASTNode) : List SemanticToken := (traverse_node builder_init node).tokens

/-- The entry for the own span of a node: the 0-based position of its lexer
token, the length of the token, and a classification. -/
def own_token (token : Token) (type modifiers : Int) : SemanticToken :=
  ⟨token.line - 1, token.col - 1, token.len, type, modifiers⟩

/-- Deduplication as the specification words it (section 4.3): one pass in
which an entry is dropped if its `(line, column)` equals that of the entry kept
last (`kept`, `none` before the first entry is kept). -/
def spec_dedup : Option SemanticToken → List SemanticToken → List SemanticToken
  | _, [] => []
  | none, t :: rest => t :: spec_dedup (some t) rest
  | some k, t :: rest =>
      if t.line = k.line ∧ t.col = k.col then spec_dedup (some k) rest
      else t :: spec_dedup (some t) rest

/-- The invariant of the buffer that `builder_init` sets up: a positive
capacity and no more entries than the capacity. -/
def builder_wf (b : TokenBuilder) : Prop :=
  0 < b.capacity ∧ b.count ≤ b.capacity

instance (b : TokenBuilder) : Decidable (builder_wf b) := by
  unfold builder_wf; infer_instance

/-- An enum declaration at lexer position (1,6) with three variants at (2,5),
(3,5) and (4,5), linked by `next`. -/
def doc_enum : ASTNode :=
  .NODE_ENUM (tok 1 6 5) .null
    (.NODE_ENUM_VARIANT (tok 2 5 3)
      (.NODE_ENUM_VARIANT (tok 3 5 5) (.NODE_ENUM_VARIANT (tok 4 5 4) .null false) false) false)

/-- A struct declaration at lexer position (1,8) with two fields at (2,5) and
(3,5), linked by `next`. -/
def doc_struct : ASTNode :=
  .NODE_STRUCT (tok 1 8 5) .null
    (.NODE_FIELD (tok 2 5 1) (.NODE_FIELD (tok 3 5 1) .null))

/-- The two top-level function declarations of `doc_root`, at lexer positions
(1,4) and (3,4), linked by `next`, each with an empty block as body. -/
def two_functions : ASTNode :=
  .NODE_FUNCTION (tok 1 4 1)
    (.NODE_FUNCTION (tok 3 4 1) .null 0 (.NODE_BLOCK (tok 3 8 1) .null .null))
    0 (.NODE_BLOCK (tok 1 8 1) .null .null)

/-- A root node without span whose declaration chain is `two_functions`. -/
def doc_root : ASTNode :=
  .NODE_ROOT ⟨TokenType.TOK_EOF, 0, 0, 0⟩ .null two_functions

/-- A block of two statements followed, as second node of the outermost
chain, by a call with two arguments. -/
def doc_sequence : ASTNode :=
  .NODE_BLOCK (tok 1 1 1)
    (.NODE_EXPR_CALL (tok 5 2 1) .null (.NODE_EXPR_VAR (tok 5 1 1) .null)
      (.NODE_EXPR_LITERAL (tok 5 3 1)
        (.NODE_EXPR_VAR (tok 5 6 1) .null) LiteralKind.LITERAL_INT))
    (.NODE_VAR_DECL (tok 2 5 1)
      (.NODE_RETURN (tok 3 1 6) .null (.NODE_EXPR_VAR (tok 3 8 1) .null))
      (.NODE_EXPR_LITERAL (tok 2 9 2) .null LiteralKind.LITERAL_STRING))

/-- A node of a kind without case in `traverse_node` whose children and
sibling all carry tokens. -/
def doc_unknown : ASTNode :=
  .NODE_OTHER 77 (tok 1 1 2) (.NODE_EXPR_VAR (tok 9 1 1) .null)
    (.NODE_EXPR_VAR (tok 1 4 1) .null) (.NODE_EXPR_VAR (tok 2 4 1) .null)
    (.NODE_EXPR_VAR (tok 3 4 1) .null)

/-- The buffer of `builder_init` once 4096 entries have been pushed: full, at
its first capacity, so that the next push doubles. -/
def full_buffer : TokenBuilder :=
  { tokens := List.replicate 4096 ⟨0, 0, 1, 0, 0⟩, capacity := 4096 }

/-- A full buffer of 2^30 entries, the capacity that eighteen doublings of
4096 give: doubling once more leaves the range of a C `int`. -/
def huge_buffer : TokenBuilder :=
  { tokens := List.replicate 1073741824 ⟨0, 0, 1, 0, 0⟩, capacity := 1073741824 }

/-- A `TokenBuilder` value that holds three entries with a capacity of 1; no
run of `builder_init` and `builder_push` produces it. -/
def overfull_buffer : TokenBuilder :=
  { tokens := [⟨0, 0, 1, 0, 0⟩, ⟨0, 1, 1, 0, 0⟩, ⟨0, 2, 1, 0, 0⟩], capacity := 1 }

theorem wrap32_eq_self {x : Int} (h1 : -2147483648 ≤ x) (h2 : x < 2147483648) :
    wrap32 x = x := by
  unfold wrap32; omega

theorem wrap32_lt (x : Int) : wrap32 x < 2147483648 := by
  unfold wrap32; omega

theorem wrap32_ge (x : Int) : -2147483648 ≤ wrap32 x := by
  unfold wrap32; omega

theorem builder_push_tokens (b : TokenBuilder) (line col length type modifiers : Int) :
    (builder_push b line col length type modifiers).tokens =
      if line < 0 ∨ col < 0 then b.tokens
      else b.tokens ++ [⟨line, col, length, type, modifiers⟩] := by
  unfold builder_push
  split <;> rfl

theorem builder_push_valid {b : TokenBuilder} (hb : buffer_valid b)
    (line col length type modifiers : Int) (hl : line < 2147483648) (hc : col < 2147483648) :
    buffer_valid (builder_push b line col length type modifiers) := by
  intro t ht
  rw [builder_push_tokens] at ht
  split at ht
  · exact hb t ht
  · rcases List.mem_append.1 ht with h | h
    · exact hb t h
    · rw [List.mem_singleton] at h
      subst h
      unfold valid_pos
      simp only
      omega

/-- Any property of the buffer that `builder_push` keeps, when called with the
0-based position of a lexer token, is kept by the walker. -/
theorem walk_preserves (P : TokenBuilder → Prop)
    (hP : ∀ (b : TokenBuilder) (token : Token) (type modifiers : Int), P b →
      P (builder_push b (wrap32 (token.line - 1)) (wrap32 (token.col - 1)) token.len type
        modifiers)) :
    ∀ (node : ASTNode) (loop : Bool) (b : TokenBuilder), P b → P (walk node loop b) := by
  intro node
  induction node <;> intro loop b hb <;> simp only [walk, push_own] <;> (try split_ifs) <;>
    repeat (first | assumption | apply_assumption)

theorem walk_valid (node : ASTNode) (loop : Bool) {b : TokenBuilder} (hb : buffer_valid b) :
    buffer_valid (walk node loop b) :=
  walk_preserves buffer_valid
    (fun _ _ _ _ h => builder_push_valid h _ _ _ _ _ (wrap32_lt _) (wrap32_lt _)) node loop b hb

theorem collect_valid (ast : ASTNode) : buffer_valid (collect ast) := by
  unfold collect traverse_chain
  apply walk_valid
  intro t ht
  simp [builder_init] at ht

theorem compare_tokens_le_iff {a b : SemanticToken} (ha : valid_pos a) (hb : valid_pos b) :
    compare_tokens a b ≤ 0 ↔ pos_le a b := by
  unfold valid_pos at ha hb
  unfold compare_tokens pos_le
  split
  · rw [wrap32_eq_self (by omega) (by omega)]; omega
  · rw [wrap32_eq_self (by omega) (by omega)]; omega

/-- What the contract of `qsort` gives on a buffer of valid tokens. -/
theorem qsort_result_facts {before after : List SemanticToken}
    (hv : ∀ t ∈ before, valid_pos t) (h : IsQsortResult before after) :
    (∀ t ∈ after, valid_pos t) ∧ after.Pairwise pos_le := by
  have hva : ∀ t ∈ after, valid_pos t := fun t ht => hv t (h.1.subset ht)
  refine ⟨hva, ?_⟩
  refine List.Pairwise.imp_of_mem ?_ h.2
  intro a b ha hb hab
  exact (compare_tokens_le_iff (hva a ha) (hva b hb)).1 hab

theorem sorted_tokens_facts (qsort : List SemanticToken → List SemanticToken) (ast : ASTNode)
    (h : IsQsortResult (collect ast).tokens (qsort (collect ast).tokens)) :
    (∀ t ∈ sorted_tokens qsort ast, valid_pos t) ∧ (sorted_tokens qsort ast).Pairwise pos_le :=
  qsort_result_facts (collect_valid ast) h

/-- On valid tokens the encoder loop is the specification's encoder run over
the surviving tokens. -/
theorem encode_loop_eq_spec : ∀ (ts : List SemanticToken) (prev : Option SemanticToken)
    (pl pc : Int), 0 ≤ pl → pl < 2147483648 → 0 ≤ pc → pc < 2147483648 →
    (∀ t ∈ ts, valid_pos t) →
    encode_loop prev pl pc ts = spec_delta_encode pl pc (survivors prev ts) := by
  intro ts
  induction ts with
  | nil => intros; rfl
  | cons t rest ih =>
    intro prev pl pc h1 h2 h3 h4 hv
    have ht : valid_pos t := hv t (List.mem_cons_self _ _)
    have hrest : ∀ x ∈ rest, valid_pos x := fun x hx => hv x (List.mem_cons_of_mem _ hx)
    unfold valid_pos at ht
    simp only [encode_loop, survivors]
    split
    · exact ih (some t) pl pc h1 h2 h3 h4 hrest
    · simp only [spec_delta_encode]
      rw [ih (some t) t.line t.col ht.1 ht.2.1 ht.2.2.1 ht.2.2.2 hrest]
      rw [wrap32_eq_self (x := t.line - pl) (by omega) (by omega)]
      rw [wrap32_eq_self (x := t.col - pc) (by omega) (by omega)]
      have hiff : (t.line - pl = 0) ↔ (t.line = pl) := by omega
      simp only [hiff]

/-- Decoding what the specification's encoder wrote gives the tokens back. -/
theorem spec_decode_encode : ∀ (ts : List SemanticToken) (pl pc : Int),
    spec_decode pl pc (spec_delta_encode pl pc ts) = ts := by
  intro ts
  induction ts with
  | nil => intros; rfl
  | cons t rest ih =>
    intro pl pc
    simp only [spec_delta_encode, spec_decode]
    have h1 : pl + (t.line - pl) = t.line := by omega
    have hiff : (t.line - pl = 0) ↔ (t.line = pl) := by omega
    have h2 : (if t.line - pl = 0 then pc + (if t.line = pl then t.col - pc else t.col)
        else (if t.line = pl then t.col - pc else t.col)) = t.col := by
      by_cases h : t.line = pl
      · simp only [hiff, h, if_true]; omega
      · simp only [hiff, h, if_false]
    rw [h1, h2, ih]

theorem spec_delta_encode_length : ∀ (ts : List SemanticToken) (pl pc : Int),
    (spec_delta_encode pl pc ts).length = 5 * ts.length := by
  intro ts
  induction ts with
  | nil => intros; rfl
  | cons t rest ih =>
    intro pl pc
    simp only [spec_delta_encode, List.length_cons, ih]
    omega

theorem survivors_subset : ∀ (ts : List SemanticToken) (prev : Option SemanticToken),
    ∀ x ∈ survivors prev ts, x ∈ ts := by
  intro ts
  induction ts with
  | nil => intro prev x hx; simp [survivors] at hx
  | cons t rest ih =>
    intro prev x hx
    simp only [survivors] at hx
    split at hx
    · exact List.mem_cons_of_mem _ (ih _ x hx)
    · rcases List.mem_cons.1 hx with h | h
      · subst h; exact List.mem_cons_self _ _
      · exact List.mem_cons_of_mem _ (ih _ x h)

theorem pos_le_lt_trans {a b c : SemanticToken} (h1 : pos_le a b) (h2 : pos_lt b c) :
    pos_lt a c := by
  unfold pos_le at h1; unfold pos_lt at h2 ⊢; omega

/-- In a sorted array every survivor after the entry `p` lies strictly after it. -/
theorem survivors_after : ∀ (ts : List SemanticToken) (p : SemanticToken),
    (p :: ts).Pairwise pos_le → ∀ x ∈ survivors (some p) ts, pos_lt p x := by
  intro ts
  induction ts with
  | nil => intro p _ x hx; simp [survivors] at hx
  | cons t rest ih =>
    intro p hs x hx
    have hpt : pos_le p t := (List.pairwise_cons.1 hs).1 t (List.mem_cons_self _ _)
    have htl : (t :: rest).Pairwise pos_le := (List.pairwise_cons.1 hs).2
    simp only [survivors] at hx
    split at hx
    · exact pos_le_lt_trans hpt (ih t htl x hx)
    · rename_i hskip
      rcases List.mem_cons.1 hx with h | h
      · subst h
        simp only [skipped, decide_eq_true_eq] at hskip
        unfold pos_le at hpt; unfold pos_lt; omega
      · exact pos_le_lt_trans hpt (ih t htl x h)

/-- The survivors of a sorted array are strictly increasing. -/
theorem survivors_strict : ∀ (ts : List SemanticToken) (prev : Option SemanticToken),
    ts.Pairwise pos_le → (survivors prev ts).Pairwise pos_lt := by
  intro ts
  induction ts with
  | nil => intro prev _; simp [survivors]
  | cons t rest ih =>
    intro prev hs
    have htl : rest.Pairwise pos_le := (List.pairwise_cons.1 hs).2
    simp only [survivors]
    split
    · exact ih _ htl
    · exact List.pairwise_cons.2 ⟨survivors_after rest t hs, ih _ htl⟩

/-- The data of a document is the specification's encoding of the survivors
of the sorted array, and decodes to them. -/
theorem data_eq_spec (qsort : List SemanticToken → List SemanticToken) (ast : ASTNode)
    (h : IsQsortResult (collect ast).tokens (qsort (collect ast).tokens)) :
    semantic_tokens_data qsort ast =
      spec_delta_encode 0 0 (survivors none (sorted_tokens qsort ast)) :=
  encode_loop_eq_spec _ none 0 0 (by omega) (by omega) (by omega) (by omega)
    (sorted_tokens_facts qsort ast h).1

theorem decode_data (qsort : List SemanticToken → List SemanticToken) (ast : ASTNode)
    (h : IsQsortResult (collect ast).tokens (qsort (collect ast).tokens)) :
    spec_decode 0 0 (semantic_tokens_data qsort ast) =
      survivors none (sorted_tokens qsort ast) := by
  rw [data_eq_spec qsort ast h, spec_decode_encode]

theorem find?_eq_head?_filter (p : SemanticToken → Bool) :
    ∀ (ts : List SemanticToken), ts.find? p = (ts.filter p).head? := by
  intro ts
  induction ts with
  | nil => rfl
  | cons t rest ih =>
    by_cases h : p t = true
    · simp only [List.find?_cons, List.filter_cons, h, if_true, List.head?_cons]
    · have h0 : p t = false := by simpa using h
      simp only [List.find?_cons, List.filter_cons, h0, Bool.false_eq_true, if_false]
      exact ih

/-- In a sorted array the survivors at a position are the first array entry at
that position, unless the entry before the array already lies there. -/
theorem survivors_filter : ∀ (ts : List SemanticToken) (prev : Option SemanticToken)
    (l c : Int), ts.Pairwise pos_le → (∀ q, prev = some q → ∀ x ∈ ts, pos_le q x) →
    (survivors prev ts).filter (same_pos l c) =
      if prev_at prev l c then [] else (ts.find? (same_pos l c)).toList := by
  intro ts
  induction ts with
  | nil => intro prev l c _ _; simp [survivors]
  | cons t rest ih =>
    intro prev l c hs hp
    have htl : rest.Pairwise pos_le := (List.pairwise_cons.1 hs).2
    have hrest : ∀ x ∈ rest, pos_le t x := (List.pairwise_cons.1 hs).1
    have ih1 := ih (some t) l c htl (by intro q hq x hx; cases hq; exact hrest x hx)
    simp only [prev_at] at ih1
    simp only [survivors]
    by_cases ht : same_pos l c t = true
    · simp only [ht, if_true] at ih1
      simp only [List.find?_cons, ht, Option.toList]
      cases prev with
      | none => simp [skipped, prev_at, ih1, ht]
      | some q =>
        by_cases hq : same_pos l c q = true
        · have hsk : skipped (some q) t = true := by
            simp only [same_pos, decide_eq_true_eq] at ht hq
            simp only [skipped, decide_eq_true_eq]; omega
          simp [hsk, prev_at, hq, ih1]
        · have hsk : ¬ skipped (some q) t = true := by
            simp only [same_pos, decide_eq_true_eq] at ht hq
            simp only [skipped, decide_eq_true_eq]; omega
          simp [hsk, prev_at, hq, ih1, ht]
    · have ht0 : same_pos l c t = false := by simpa using ht
      simp only [ht0, Bool.false_eq_true, if_false] at ih1
      simp only [List.find?_cons, ht0]
      cases prev with
      | none => simp [skipped, prev_at, ih1, ht0]
      | some q =>
        by_cases hq : same_pos l c q = true
        · have hsk : ¬ skipped (some q) t = true := by
            simp only [same_pos, decide_eq_true_eq] at ht hq
            simp only [skipped, decide_eq_true_eq]; omega
          have hqt : pos_le q t := hp q rfl t (List.mem_cons_self _ _)
          have hnone : rest.find? (same_pos l c) = none := by
            rw [List.find?_eq_none]
            intro x hx
            have hx1 := hrest x hx
            simp only [same_pos, decide_eq_true_eq] at ht hq ⊢
            unfold pos_le at hqt hx1
            omega
          simp [hsk, prev_at, hq, ih1, ht0, hnone]
        · have hq0 : same_pos l c q = false := by simpa using hq
          by_cases hsk : skipped (some q) t = true
          · simp [hsk, prev_at, hq0, ih1]
          · simp [hsk, prev_at, hq0, ih1, ht0]

/-- Inserting a valid token into a sorted list of valid tokens keeps it sorted. -/
theorem orderedInsert_sorted (a : SemanticToken) (ha : valid_pos a) :
    ∀ (l : List SemanticToken), (∀ x ∈ l, valid_pos x) →
    l.Pairwise (fun x y => compare_tokens x y ≤ 0) →
    (List.orderedInsert (fun x y => compare_tokens x y ≤ 0) a l).Pairwise
      (fun x y => compare_tokens x y ≤ 0) := by
  intro l
  induction l with
  | nil => intro _ _; simp [List.orderedInsert]
  | cons b l ih =>
    intro hv hs
    have hb : valid_pos b := hv b (List.mem_cons_self _ _)
    have hvl : ∀ x ∈ l, valid_pos x := fun x hx => hv x (List.mem_cons_of_mem _ hx)
    have hbl : ∀ x ∈ l, compare_tokens b x ≤ 0 := (List.pairwise_cons.1 hs).1
    simp only [List.orderedInsert]
    split
    · rename_i hab
      refine List.pairwise_cons.2 ⟨?_, hs⟩
      intro x hx
      rcases List.mem_cons.1 hx with h | h
      · subst h; exact hab
      · have h1 := (compare_tokens_le_iff ha hb).1 hab
        have h2 := (compare_tokens_le_iff hb (hvl x h)).1 (hbl x h)
        refine (compare_tokens_le_iff ha (hvl x h)).2 ?_
        unfold pos_le at h1 h2 ⊢
        omega
    · rename_i hab
      refine List.pairwise_cons.2 ⟨?_, ih hvl (List.pairwise_cons.1 hs).2⟩
      intro x hx
      rcases (List.mem_orderedInsert _).1 hx with h | h
      · subst h
        have h1 : ¬ pos_le x b := fun hle => hab ((compare_tokens_le_iff ha hb).2 hle)
        refine (compare_tokens_le_iff hb ha).2 ?_
        unfold pos_le at h1 ⊢
        omega
      · exact hbl x h

theorem insertionSort_sorted : ∀ (l : List SemanticToken), (∀ x ∈ l, valid_pos x) →
    (List.insertionSort (fun x y => compare_tokens x y ≤ 0) l).Pairwise
      (fun x y => compare_tokens x y ≤ 0) := by
  intro l
  induction l with
  | nil => intro _; simp [List.insertionSort]
  | cons b l ih =>
    intro hv
    have hvl : ∀ x ∈ l, valid_pos x := fun x hx => hv x (List.mem_cons_of_mem _ hx)
    simp only [List.insertionSort]
    refine orderedInsert_sorted b (hv b (List.mem_cons_self _ _)) _ ?_ (ih hvl)
    intro x hx
    exact hvl x ((List.mem_insertionSort _).1 hx)

/-- The contract of `qsort` can be met on every buffer of valid tokens, by a
sort that keeps ties in emission order. -/
theorem stable_qsort_meets_contract (b : TokenBuilder) (hb : buffer_valid b) :
    IsQsortResult b.tokens (stable_qsort b.tokens) :=
  ⟨List.perm_insertionSort _ _, insertionSort_sorted _ hb⟩

/-- The contract of `qsort` can be met on every buffer of valid tokens, by a
sort that reverses ties. -/
theorem reversing_qsort_meets_contract (b : TokenBuilder) (hb : buffer_valid b) :
    IsQsortResult b.tokens (reversing_qsort b.tokens) :=
  ⟨(List.perm_insertionSort _ _).trans (List.reverse_perm _),
    insertionSort_sorted _ (fun x hx => hb x (List.mem_reverse.1 hx))⟩

theorem quintuples_length : ∀ (ts : List SemanticToken) (pl pc : Int),
    (quintuples (spec_delta_encode pl pc ts)).length = ts.length := by
  intro ts
  induction ts with
  | nil => intros; rfl
  | cons t rest ih =>
    intro pl pc
    simp only [spec_delta_encode, quintuples, List.length_cons, ih]

/-- Deltas of the specification's encoding are non-negative when the tokens
are strictly increasing and none lies before the starting position. -/
theorem spec_deltas_nonneg : ∀ (ts : List SemanticToken) (pl pc : Int),
    ts.Pairwise pos_lt → (∀ t ∈ ts, pl < t.line ∨ (pl = t.line ∧ pc ≤ t.col)) →
    ∀ q ∈ quintuples (spec_delta_encode pl pc ts), 0 ≤ q.1 ∧ (q.1 = 0 → 0 ≤ q.2.1) := by
  intro ts
  induction ts with
  | nil => intro pl pc _ _ q hq; simp [spec_delta_encode, quintuples] at hq
  | cons t rest ih =>
    intro pl pc hs hp q hq
    simp only [spec_delta_encode, quintuples] at hq
    have ht := hp t (List.mem_cons_self _ _)
    rcases List.mem_cons.1 hq with h | h
    · subst h
      simp only
      constructor
      · omega
      · intro h0
        have : t.line = pl := by omega
        simp only [this, if_true]
        omega
    · refine ih t.line t.col (List.pairwise_cons.1 hs).2 ?_ q h
      intro x hx
      have := (List.pairwise_cons.1 hs).1 x hx
      unfold pos_lt at this
      omega

/-- A buffer that is already strictly increasing is left as it is by every
sort that meets the contract. -/
theorem qsort_result_of_strict {before after : List SemanticToken}
    (hv : ∀ t ∈ before, valid_pos t) (hs : before.Pairwise pos_lt)
    (h : IsQsortResult before after) : after = before := by
  have hle := (qsort_result_facts hv h).2
  have hne : before.Pairwise (fun a b => ¬ (a.line = b.line ∧ a.col = b.col)) :=
    hs.imp (by intro a b hab; unfold pos_lt at hab; omega)
  have hne_after : after.Pairwise (fun a b => ¬ (a.line = b.line ∧ a.col = b.col)) :=
    hne.perm h.1.symm (by intro x y hxy; omega)
  have hlt : after.Pairwise pos_lt :=
    (hle.and hne_after).imp (by intro a b hab; unfold pos_le at hab; unfold pos_lt; omega)
  refine List.Perm.eq_of_sorted ?_ hlt hs h.1
  intro a b _ _ hab hba
  unfold pos_lt at hab hba
  omega

/-- The walker only appends to the buffer. -/
theorem walk_appends (node : ASTNode) (loop : Bool) (b : TokenBuilder) :
    ∃ suffix, (walk node loop b).tokens = b.tokens ++ suffix := by
  refine walk_preserves (fun b1 => ∃ suffix, b1.tokens = b.tokens ++ suffix) ?_ node loop b
    ⟨[], by simp⟩
  intro b1 token type modifiers hb1
  obtain ⟨suffix, hs⟩ := hb1
  rw [builder_push_tokens]
  split
  · exact ⟨suffix, hs⟩
  · exact ⟨suffix ++ [_], by rw [hs, List.append_assoc]⟩

/-- The quintuple of a surviving token that has a predecessor. -/
theorem quintuples_get_succ : ∀ (ts : List SemanticToken) (pl pc : Int) (i : Nat)
    (p t : SemanticToken), ts[i]? = some p → ts[i + 1]? = some t →
    (quintuples (spec_delta_encode pl pc ts))[i + 1]? =
      some (t.line - p.line, (if t.line = p.line then t.col - p.col else t.col), t.length,
        t.token_type, t.token_modifiers) := by
  intro ts
  induction ts with
  | nil => intro pl pc i p t hp _; simp at hp
  | cons s rest ih =>
    intro pl pc i p t hp ht
    simp only [spec_delta_encode, quintuples, List.getElem?_cons_succ] at ht ⊢
    cases i with
    | zero =>
      simp only [List.getElem?_cons_zero, Option.some.injEq] at hp
      subst hp
      cases rest with
      | nil => simp at ht
      | cons r rest1 =>
        simp only [List.getElem?_cons_zero, Option.some.injEq] at ht
        subst ht
        simp only [spec_delta_encode, quintuples, List.getElem?_cons_zero]
    | succ j =>
      simp only [List.getElem?_cons_succ] at hp
      exact ih s.line s.col j p t hp ht

/-- Any relation between two buffers that `builder_push` keeps, when called on
both with the 0-based position of one lexer token, is kept by the walker. -/
theorem walk_rel (R : TokenBuilder → TokenBuilder → Prop)
    (hR : ∀ (b b1 : TokenBuilder) (token : Token) (type modifiers : Int), R b b1 →
      R (builder_push b (wrap32 (token.line - 1)) (wrap32 (token.col - 1)) token.len type
          modifiers)
        (builder_push b1 (wrap32 (token.line - 1)) (wrap32 (token.col - 1)) token.len type
          modifiers)) :
    ∀ (node : ASTNode) (loop : Bool) (b b1 : TokenBuilder), R b b1 →
      R (walk node loop b) (walk node loop b1) := by
  intro node
  induction node <;> intro loop b b1 hb <;> simp only [walk, push_own] <;> (try split_ifs) <;>
    repeat (first | assumption | apply_assumption)

/-- What the walker appends does not depend on the buffer it starts from. -/
theorem walk_tokens_append (node : ASTNode) (loop : Bool) (b : TokenBuilder) :
    (walk node loop b).tokens = b.tokens ++ (walk node loop builder_init).tokens := by
  refine walk_rel (fun b1 b2 => b1.tokens = b.tokens ++ b2.tokens) ?_ node loop b builder_init
    (by simp [builder_init])
  intro b1 b2 token type modifiers h
  rw [builder_push_tokens, builder_push_tokens]
  split
  · exact h
  · rw [h, List.append_assoc]

theorem traverse_node_tokens (b : TokenBuilder) (node : ASTNode) :
    (traverse_node b node).tokens = b.tokens ++ emitted node :=
  walk_tokens_append node false b

/-- One turn of the loop `while (p) { traverse_node(b, p); p = p->next; }`. -/
theorem walk_true_eq (node : ASTNode) (b : TokenBuilder) :
    walk node true b = walk node.next true (walk node false b) := by
  cases node <;> simp [walk, ASTNode.next]

theorem chain_eq_nil {node : ASTNode} (h : chain node = []) : node = ASTNode.null := by
  cases node <;> simp [chain] at h ⊢

theorem chain_eq_cons {node n : ASTNode} {rest : List ASTNode} (h : chain node = n :: rest) :
    n = node ∧ rest = chain node.next := by
  cases node <;> simp [chain, ASTNode.next] at h ⊢ <;> exact ⟨h.1.symm, h.2.symm⟩

/-- The loop over a `next` chain stores the tokens of its nodes one after the
other, in chain order. -/
theorem walk_chain_tokens (node : ASTNode) (b : TokenBuilder) :
    (walk node true b).tokens = b.tokens ++ ((chain node).map emitted).flatten := by
  have key : ∀ (l : List ASTNode) (node : ASTNode) (b : TokenBuilder), chain node = l →
      (walk node true b).tokens = b.tokens ++ (l.map emitted).flatten := by
    intro l
    induction l with
    | nil =>
      intro node b h
      rw [chain_eq_nil h]
      simp [walk]
    | cons n rest ih =>
      intro node b h
      obtain ⟨hn, hrest⟩ := chain_eq_cons h
      subst hn
      rw [walk_true_eq, ih n.next (walk n false b) hrest.symm, walk_tokens_append n false b]
      simp [emitted, traverse_node, List.append_assoc]
  exact key (chain node) node b rfl

theorem traverse_chain_tokens (b : TokenBuilder) (node : ASTNode) :
    (traverse_chain b node).tokens = b.tokens ++ ((chain node).map emitted).flatten :=
  walk_chain_tokens node b

/-- On a lexer token that is not the sentinel and whose 0-based position is a
non-negative C `int`, `push_own` appends the own token. -/
theorem push_own_tokens (b : TokenBuilder) (token : Token) (type modifiers : Int)
    (hty : token.type ≠ TokenType.TOK_EOF)
    (hl : 1 ≤ token.line) (hl2 : token.line ≤ 2147483647)
    (hc : 1 ≤ token.col) (hc2 : token.col ≤ 2147483647) :
    (push_own b token type modifiers).tokens = b.tokens ++ [own_token token type modifiers] := by
  unfold push_own
  rw [if_pos hty, builder_push_tokens, wrap32_eq_self (by omega) (by omega),
    wrap32_eq_self (by omega) (by omega), if_neg (by omega)]
  rfl

theorem push_own_eof (b : TokenBuilder) (token : Token) (type modifiers : Int)
    (hty : token.type = TokenType.TOK_EOF) : push_own b token type modifiers = b := by
  unfold push_own
  rw [if_neg (by simp [hty])]


/-- With a lexer token whose 0-based position is a non-negative C `int`,
`builder_push` appends the own token. -/
theorem builder_push_own_tokens (b : TokenBuilder) (token : Token) (type modifiers : Int)
    (hl : 1 ≤ token.line) (hl2 : token.line ≤ 2147483647)
    (hc : 1 ≤ token.col) (hc2 : token.col ≤ 2147483647) :
    (builder_push b (wrap32 (token.line - 1)) (wrap32 (token.col - 1)) token.len type
      modifiers).tokens = b.tokens ++ [own_token token type modifiers] := by
  rw [builder_push_tokens, wrap32_eq_self (by omega) (by omega),
    wrap32_eq_self (by omega) (by omega), if_neg (by omega)]
  rfl

/-- The code's test against the entry before and the specification's test
against the entry kept last drop the same entries, because the entry before
always lies at the position of the entry kept last. -/
theorem survivors_eq_spec_dedup : ∀ (ts : List SemanticToken) (p k : SemanticToken),
    p.line = k.line → p.col = k.col → survivors (some p) ts = spec_dedup (some k) ts := by
  intro ts
  induction ts with
  | nil => intros; rfl
  | cons t rest ih =>
    intro p k hl hc
    simp only [survivors, spec_dedup, skipped, decide_eq_true_eq]
    by_cases h : t.line = p.line ∧ t.col = p.col
    · have h1 : t.line = k.line ∧ t.col = k.col := by omega
      rw [if_pos h, if_pos h1]
      exact ih t k (by omega) (by omega)
    · have h1 : ¬ (t.line = k.line ∧ t.col = k.col) := by omega
      rw [if_neg h, if_neg h1, ih t t rfl rfl]

theorem builder_push_count (b : TokenBuilder) (line col length type modifiers : Int)
    (hl : 0 ≤ line) (hc : 0 ≤ col) :
    (builder_push b line col length type modifiers).count = b.count + 1 := by
  unfold TokenBuilder.count
  rw [builder_push_tokens, if_neg (by omega)]
  simp

theorem builder_push_capacity (b : TokenBuilder) (line col length type modifiers : Int)
    (hl : 0 ≤ line) (hc : 0 ≤ col) :
    (builder_push b line col length type modifiers).capacity =
      (if b.count ≥ b.capacity then wrap32 (b.capacity * 2) else b.capacity) := by
  unfold builder_push
  rw [if_neg (by omega)]

theorem full_buffer_count : full_buffer.count = 4096 := by
  unfold TokenBuilder.count full_buffer
  rw [List.length_replicate]
  rfl

theorem huge_buffer_count : huge_buffer.count = 1073741824 := by
  unfold TokenBuilder.count huge_buffer
  rw [List.length_replicate]
  rfl

/-! ## The claims -/

/-- C1 (strict ordering). For every AST root chain and every result of
`qsort` that meets its contract, the positions obtained by decoding the emitted
delta stream are strictly increasing in `(line, column)` order, pair by pair,
so no two output entries share a position. -/
theorem strict_ordering (qsort : List SemanticToken → List SemanticToken) (ast : ASTNode)
    (h : IsQsortResult (collect ast).tokens (qsort (collect ast).tokens)) :
    (spec_decode 0 0 (semantic_tokens_data qsort ast)).Pairwise pos_lt := by
  rw [decode_data qsort ast h]
  exact survivors_strict _ none (sorted_tokens_facts qsort ast h).2

theorem strict_ordering_witness :
    IsQsortResult (collect doc_mixed).tokens (stable_qsort (collect doc_mixed).tokens) ∧
    (spec_decode 0 0 (semantic_tokens_data stable_qsort doc_mixed)).Pairwise pos_lt :=
  ⟨by decide, strict_ordering stable_qsort doc_mixed (by decide)⟩

/-- C2 (round trip). For every token buffer (of valid tokens, as
`builder_push` stores them) and every result of `qsort` on it, decoding the
quintuples that the encoder loop emits, by cumulative summation from (0, 0),
gives back exactly the entries of the sorted array that the loop did not skip,
with their length, type and modifiers. -/
theorem round_trip (b : TokenBuilder) (qsort : List SemanticToken → List SemanticToken)
    (hb : buffer_valid b) (h : IsQsortResult b.tokens (qsort b.tokens)) :
    spec_decode 0 0 (encode_loop none 0 0 (qsort b.tokens)) = survivors none (qsort b.tokens) := by
  rw [encode_loop_eq_spec _ none 0 0 (by omega) (by omega) (by omega) (by omega)
    (qsort_result_facts hb h).1, spec_decode_encode]

theorem round_trip_witness :
    buffer_valid (collect doc_collide) ∧
    IsQsortResult (collect doc_collide).tokens (reversing_qsort (collect doc_collide).tokens) ∧
    spec_decode 0 0 (encode_loop none 0 0 (reversing_qsort (collect doc_collide).tokens)) =
      survivors none (reversing_qsort (collect doc_collide).tokens) :=
  ⟨collect_valid doc_collide, by decide,
    round_trip (collect doc_collide) reversing_qsort (collect_valid doc_collide) (by decide)⟩

/-- C3 as amended. For every AST, every result of `qsort` that meets its
contract and every position at which the walker stored a token: exactly one
decoded output entry lies at that position; it is the first entry at that
position of the sorted array, hence one of the tokens the walker stored there;
and when `qsort` left the tokens of that position in emission order it is the
one emitted earliest. -/
theorem dedup_keeps_first_sorted (qsort : List SemanticToken → List SemanticToken)
    (ast : ASTNode) (l c : Int)
    (h : IsQsortResult (collect ast).tokens (qsort (collect ast).tokens))
    (hemit : ∃ t ∈ (collect ast).tokens, same_pos l c t = true) :
    ∃ s, (sorted_tokens qsort ast).find? (same_pos l c) = some s ∧
      (spec_decode 0 0 (semantic_tokens_data qsort ast)).filter (same_pos l c) = [s] ∧
      s ∈ (collect ast).tokens ∧
      ((sorted_tokens qsort ast).filter (same_pos l c) =
          (collect ast).tokens.filter (same_pos l c) →
        (collect ast).tokens.find? (same_pos l c) = some s) := by
  obtain ⟨t, ht, htp⟩ := hemit
  have hmem : t ∈ sorted_tokens qsort ast := h.1.symm.subset ht
  have hsome : ((sorted_tokens qsort ast).find? (same_pos l c)).isSome = true :=
    List.find?_isSome.2 ⟨t, hmem, htp⟩
  obtain ⟨s, hs⟩ := Option.isSome_iff_exists.1 hsome
  refine ⟨s, hs, ?_, h.1.subset (List.mem_of_find?_eq_some hs), ?_⟩
  · rw [decode_data qsort ast h,
      survivors_filter _ none l c (sorted_tokens_facts qsort ast h).2 (by intro q hq; cases hq)]
    simp [prev_at, hs]
  · intro hst
    rw [find?_eq_head?_filter, ← hst, ← find?_eq_head?_filter]
    exact hs

theorem dedup_keeps_first_sorted_witness :
    IsQsortResult (collect doc_collide).tokens (stable_qsort (collect doc_collide).tokens) ∧
    (∃ t ∈ (collect doc_collide).tokens, same_pos 0 0 t = true) ∧
    ∃ s, (sorted_tokens stable_qsort doc_collide).find? (same_pos 0 0) = some s ∧
      (spec_decode 0 0 (semantic_tokens_data stable_qsort doc_collide)).filter (same_pos 0 0)
        = [s] ∧
      s ∈ (collect doc_collide).tokens ∧
      ((sorted_tokens stable_qsort doc_collide).filter (same_pos 0 0) =
          (collect doc_collide).tokens.filter (same_pos 0 0) →
        (collect doc_collide).tokens.find? (same_pos 0 0) = some s) :=
  ⟨by decide, by decide, dedup_keeps_first_sorted stable_qsort doc_collide 0 0 (by decide)
    (by decide)⟩

/-- C3 as stated fails. The walker stores for `doc_collide` the declaration
token (length 3, type 0) and then the literal token (length 1, type 5), both at
(0, 0). A sort may return them in the other order, which meets the contract of
`qsort`; the one decoded output entry at (0, 0) is then the literal token, not
the token emitted earliest. -/
theorem dedup_earliest_counterexample :
    (collect doc_collide).tokens = [⟨0, 0, 3, 0, 0⟩, ⟨0, 0, 1, 5, 0⟩] ∧
    reversing_qsort (collect doc_collide).tokens = [⟨0, 0, 1, 5, 0⟩, ⟨0, 0, 3, 0, 0⟩] ∧
    IsQsortResult (collect doc_collide).tokens (reversing_qsort (collect doc_collide).tokens) ∧
    semantic_tokens_data reversing_qsort doc_collide = [0, 0, 1, 5, 0] ∧
    spec_decode 0 0 (semantic_tokens_data reversing_qsort doc_collide) = [⟨0, 0, 1, 5, 0⟩] := by
  decide

/-- C4 (validity filter). `builder_push` with a negative line or column leaves
the buffer unchanged; whatever its arguments, every entry of the buffer after
it is an entry of the buffer before it or has a non-negative line and column;
so for every AST the collected buffer holds no token with a negative line or
column, and neither does the decoded output, for every result of `qsort`. -/
theorem validity_filter (qsort : List SemanticToken → List SemanticToken) (ast : ASTNode)
    (b : TokenBuilder) (line col length type modifiers : Int)
    (h : IsQsortResult (collect ast).tokens (qsort (collect ast).tokens)) :
    ((line < 0 ∨ col < 0) → builder_push b line col length type modifiers = b) ∧
    (∀ t ∈ (builder_push b line col length type modifiers).tokens,
      t ∈ b.tokens ∨ (0 ≤ t.line ∧ 0 ≤ t.col)) ∧
    (∀ t ∈ (collect ast).tokens, 0 ≤ t.line ∧ 0 ≤ t.col) ∧
    (∀ t ∈ spec_decode 0 0 (semantic_tokens_data qsort ast), 0 ≤ t.line ∧ 0 ≤ t.col) := by
  refine ⟨?_, ?_, ?_, ?_⟩
  · intro hneg
    unfold builder_push
    rw [if_pos hneg]
  · intro t ht
    rw [builder_push_tokens] at ht
    split at ht
    · exact Or.inl ht
    · rcases List.mem_append.1 ht with h1 | h1
      · exact Or.inl h1
      · rw [List.mem_singleton] at h1
        subst h1
        simp only
        exact Or.inr (by omega)
  · intro t ht
    have hv := collect_valid ast t ht
    exact ⟨hv.1, hv.2.2.1⟩
  · intro t ht
    rw [decode_data qsort ast h] at ht
    have hv := (sorted_tokens_facts qsort ast h).1 t (survivors_subset _ _ t ht)
    exact ⟨hv.1, hv.2.2.1⟩

theorem validity_filter_witness :
    IsQsortResult (collect doc_mixed).tokens (stable_qsort (collect doc_mixed).tokens) ∧
    builder_push (collect doc_mixed) (-1) 4 1 9 0 = collect doc_mixed ∧
    (∀ t ∈ (collect doc_mixed).tokens, 0 ≤ t.line ∧ 0 ≤ t.col) ∧
    (∀ t ∈ spec_decode 0 0 (semantic_tokens_data stable_qsort doc_mixed),
      0 ≤ t.line ∧ 0 ≤ t.col) :=
  ⟨by decide,
    (validity_filter stable_qsort doc_mixed (collect doc_mixed) (-1) 4 1 9 0 (by decide)).1
      (Or.inl (by decide)),
    (validity_filter stable_qsort doc_mixed (collect doc_mixed) (-1) 4 1 9 0 (by decide)).2.2⟩

/-- C5 (delta encoder equals its reference definition). For every AST and
every result of `qsort` that meets its contract, the emitted data is the
specification's delta encoding, started at `prevLine = prevCol = 0`, of the
array entries that the loop does not skip, one quintuple per entry in array
order; these entries are strictly increasing in position; and the data length
is five times their number. -/
theorem delta_encoder_reference (qsort : List SemanticToken → List SemanticToken)
    (ast : ASTNode) (h : IsQsortResult (collect ast).tokens (qsort (collect ast).tokens)) :
    semantic_tokens_data qsort ast =
      spec_delta_encode 0 0 (survivors none (sorted_tokens qsort ast)) ∧
    (survivors none (sorted_tokens qsort ast)).Pairwise pos_lt ∧
    (semantic_tokens_data qsort ast).length =
      5 * (survivors none (sorted_tokens qsort ast)).length := by
  refine ⟨data_eq_spec qsort ast h, survivors_strict _ none (sorted_tokens_facts qsort ast h).2, ?_⟩
  rw [data_eq_spec qsort ast h, spec_delta_encode_length]

theorem delta_encoder_reference_witness :
    IsQsortResult (collect doc_mixed).tokens (reversing_qsort (collect doc_mixed).tokens) ∧
    semantic_tokens_data reversing_qsort doc_mixed =
      spec_delta_encode 0 0 (survivors none (sorted_tokens reversing_qsort doc_mixed)) ∧
    (survivors none (sorted_tokens reversing_qsort doc_mixed)).Pairwise pos_lt ∧
    (semantic_tokens_data reversing_qsort doc_mixed).length =
      5 * (survivors none (sorted_tokens reversing_qsort doc_mixed)).length :=
  ⟨by decide, delta_encoder_reference reversing_qsort doc_mixed (by decide)⟩

/-- C6 (non-negative deltas). For every AST and every result of `qsort` that
meets its contract, the emitted data splits into quintuples without remainder,
and every quintuple, the first included, has `deltaLine >= 0` and, when
`deltaLine = 0`, `deltaStartChar >= 0`. -/
theorem nonneg_deltas (qsort : List SemanticToken → List SemanticToken) (ast : ASTNode)
    (h : IsQsortResult (collect ast).tokens (qsort (collect ast).tokens)) :
    (semantic_tokens_data qsort ast).length =
      5 * (quintuples (semantic_tokens_data qsort ast)).length ∧
    ∀ q ∈ quintuples (semantic_tokens_data qsort ast), 0 ≤ q.1 ∧ (q.1 = 0 → 0 ≤ q.2.1) := by
  rw [data_eq_spec qsort ast h]
  refine ⟨by rw [spec_delta_encode_length, quintuples_length], ?_⟩
  refine spec_deltas_nonneg _ 0 0 (survivors_strict _ none (sorted_tokens_facts qsort ast h).2) ?_
  intro t ht
  have hv := (sorted_tokens_facts qsort ast h).1 t (survivors_subset _ _ t ht)
  unfold valid_pos at hv
  omega

theorem nonneg_deltas_witness :
    IsQsortResult (collect doc_collide).tokens (stable_qsort (collect doc_collide).tokens) ∧
    (semantic_tokens_data stable_qsort doc_collide).length =
      5 * (quintuples (semantic_tokens_data stable_qsort doc_collide)).length ∧
    ∀ q ∈ quintuples (semantic_tokens_data stable_qsort doc_collide),
      0 ≤ q.1 ∧ (q.1 = 0 → 0 ≤ q.2.1) :=
  ⟨by decide, nonneg_deltas stable_qsort doc_collide (by decide)⟩

/-- C7 (empty cases). When the lookup of the document fails, or the file it
finds has no AST, the result is exactly the payload `{"data":[]}`; and when
the walker pushes no token for the AST of the file, the data array is empty
and the result is the same payload. -/
theorem empty_cases (lsp_project_get_file : String → Option ProjectFile)
    (qsort : List SemanticToken → List SemanticToken) (uri : String) :
    (lsp_project_get_file uri = none →
      lsp_semantic_tokens_full lsp_project_get_file qsort uri = "\x7b\"data\":[]\x7d") ∧
    (∀ pf, lsp_project_get_file uri = some pf → pf.ast = ASTNode.null →
      lsp_semantic_tokens_full lsp_project_get_file qsort uri = "\x7b\"data\":[]\x7d") ∧
    (∀ pf, lsp_project_get_file uri = some pf → (collect pf.ast).tokens = [] →
      IsQsortResult (collect pf.ast).tokens (qsort (collect pf.ast).tokens) →
      semantic_tokens_data qsort pf.ast = [] ∧
      lsp_semantic_tokens_full lsp_project_get_file qsort uri = "\x7b\"data\":[]\x7d") := by
  refine ⟨?_, ?_, ?_⟩
  · intro hnone
    simp only [lsp_semantic_tokens_full, hnone]
  · intro pf hsome hnull
    simp only [lsp_semantic_tokens_full, hsome, hnull, if_true]
  · intro pf hsome hempty hq
    have hsorted : qsort (collect pf.ast).tokens = [] := by
      rw [hempty] at hq ⊢
      exact List.Perm.eq_nil hq.1
    have hdata : semantic_tokens_data qsort pf.ast = [] := by
      simp only [semantic_tokens_data, sorted_tokens, hsorted, encode_loop]
    refine ⟨hdata, ?_⟩
    simp only [lsp_semantic_tokens_full, hsome, hdata]
    split
    · rfl
    · rfl

theorem empty_cases_witness :
    example_project "file:///unknown.zc" = none ∧
    lsp_semantic_tokens_full example_project stable_qsort "file:///unknown.zc" =
      "\x7b\"data\":[]\x7d" ∧
    example_project "file:///pending.zc" = some ⟨ASTNode.null⟩ ∧
    lsp_semantic_tokens_full example_project stable_qsort "file:///pending.zc" =
      "\x7b\"data\":[]\x7d" ∧
    example_project "file:///silent.zc" = some ⟨doc_silent⟩ ∧
    (collect doc_silent).tokens = [] ∧
    lsp_semantic_tokens_full example_project stable_qsort "file:///silent.zc" =
      "\x7b\"data\":[]\x7d" :=
  ⟨by decide,
    (empty_cases example_project stable_qsort "file:///unknown.zc").1 (by decide),
    by decide,
    (empty_cases example_project stable_qsort "file:///pending.zc").2.1 ⟨ASTNode.null⟩
      (by decide) rfl,
    by decide, by decide,
    ((empty_cases example_project stable_qsort "file:///silent.zc").2.2 ⟨doc_silent⟩
      (by decide) (by decide) (by decide)).2⟩

/-- C8 (scenario, nested reference). For the function declaration at
(1, 0, length 4) whose body holds a variable declaration at (2, 2, length 1)
initialised by a variable reference at (2, 6, length 1), the buffer holds the
three tokens in that order and the output data is
`[1,0,4,1,1, 1,2,1,0,0, 0,4,1,0,0]` for every result of `qsort`. In general,
for every AST, a surviving token that follows a surviving token `p` gets a
quintuple whose column delta is its column minus the column of `p` when both
are on one line, and its absolute column when it is on a later line. -/
theorem scenario_nested_reference (qsort : List SemanticToken → List SemanticToken)
    (ast : ASTNode) (i : Nat) (p t : SemanticToken)
    (hdoc : IsQsortResult (collect doc_nested).tokens (qsort (collect doc_nested).tokens))
    (h : IsQsortResult (collect ast).tokens (qsort (collect ast).tokens))
    (hp : (survivors none (sorted_tokens qsort ast))[i]? = some p)
    (ht : (survivors none (sorted_tokens qsort ast))[i + 1]? = some t) :
    (collect doc_nested).tokens = [⟨1, 0, 4, 1, 1⟩, ⟨2, 2, 1, 0, 0⟩, ⟨2, 6, 1, 0, 0⟩] ∧
    semantic_tokens_data qsort doc_nested = [1, 0, 4, 1, 1, 1, 2, 1, 0, 0, 0, 4, 1, 0, 0] ∧
    ∃ q, (quintuples (semantic_tokens_data qsort ast))[i + 1]? = some q ∧
      (t.line = p.line → q.2.1 = t.col - p.col) ∧
      (p.line < t.line → q.2.1 = t.col) := by
  refine ⟨by decide, ?_, ?_⟩
  · have hsorted : qsort (collect doc_nested).tokens = (collect doc_nested).tokens :=
      qsort_result_of_strict (collect_valid doc_nested) (by decide) hdoc
    simp only [semantic_tokens_data, sorted_tokens, hsorted]
    decide
  · rw [data_eq_spec qsort ast h, quintuples_get_succ _ 0 0 i p t hp ht]
    refine ⟨_, rfl, ?_, ?_⟩
    · intro hl
      simp only [hl, if_true]
    · intro hl
      have hne : ¬ t.line = p.line := by omega
      simp only [hne, if_false]

theorem scenario_nested_reference_witness :
    IsQsortResult (collect doc_nested).tokens (stable_qsort (collect doc_nested).tokens) ∧
    (survivors none (sorted_tokens stable_qsort doc_nested))[1]? = some ⟨2, 2, 1, 0, 0⟩ ∧
    (survivors none (sorted_tokens stable_qsort doc_nested))[1 + 1]? = some ⟨2, 6, 1, 0, 0⟩ ∧
    (collect doc_nested).tokens = [⟨1, 0, 4, 1, 1⟩, ⟨2, 2, 1, 0, 0⟩, ⟨2, 6, 1, 0, 0⟩] ∧
    semantic_tokens_data stable_qsort doc_nested
      = [1, 0, 4, 1, 1, 1, 2, 1, 0, 0, 0, 4, 1, 0, 0] ∧
    ∃ q, (quintuples (semantic_tokens_data stable_qsort doc_nested))[1 + 1]? = some q ∧
      ((2 : Int) = 2 → q.2.1 = 6 - 2) ∧ ((2 : Int) < 2 → q.2.1 = 6) :=
  ⟨by decide, by decide, by decide,
    scenario_nested_reference stable_qsort doc_nested 1 ⟨2, 2, 1, 0, 0⟩ ⟨2, 6, 1, 0, 0⟩
      (by decide) (by decide) (by decide) (by decide)⟩

/-- C9 (scenario, single declaration). For the function declaration at
(1, 0, length 4) with an empty body the buffer holds one token and the output
data is `[1,0,4,1,1]` for every result of `qsort`. In general, for every AST
for which exactly one token `t` survives, the output data is
`[t.line, t.col, t.length, t.token_type, t.token_modifiers]`: the deltas of the
first token are relative to the origin (0, 0). -/
theorem scenario_single_declaration (qsort : List SemanticToken → List SemanticToken)
    (ast : ASTNode) (t : SemanticToken)
    (hdoc : IsQsortResult (collect doc_single).tokens (qsort (collect doc_single).tokens))
    (h : IsQsortResult (collect ast).tokens (qsort (collect ast).tokens))
    (hone : survivors none (sorted_tokens qsort ast) = [t]) :
    (collect doc_single).tokens = [⟨1, 0, 4, 1, 1⟩] ∧
    semantic_tokens_data qsort doc_single = [1, 0, 4, 1, 1] ∧
    semantic_tokens_data qsort ast =
      [t.line, t.col, t.length, t.token_type, t.token_modifiers] := by
  refine ⟨by decide, ?_, ?_⟩
  · have hsorted : qsort (collect doc_single).tokens = (collect doc_single).tokens :=
      qsort_result_of_strict (collect_valid doc_single) (by decide) hdoc
    simp only [semantic_tokens_data, sorted_tokens, hsorted]
    decide
  · rw [data_eq_spec qsort ast h, hone]
    simp only [spec_delta_encode, sub_zero]
    by_cases hl : t.line = 0
    · simp only [hl, if_true]
    · simp only [hl, if_false]

theorem scenario_single_declaration_witness :
    IsQsortResult (collect doc_single).tokens (reversing_qsort (collect doc_single).tokens) ∧
    IsQsortResult (collect doc_collide).tokens (reversing_qsort (collect doc_collide).tokens) ∧
    survivors none (sorted_tokens reversing_qsort doc_collide) = [⟨0, 0, 1, 5, 0⟩] ∧
    (collect doc_single).tokens = [⟨1, 0, 4, 1, 1⟩] ∧
    semantic_tokens_data reversing_qsort doc_single = [1, 0, 4, 1, 1] ∧
    semantic_tokens_data reversing_qsort doc_collide = [0, 0, 1, 5, 0] :=
  ⟨by decide, by decide, by decide,
    scenario_single_declaration reversing_qsort doc_collide ⟨0, 0, 1, 5, 0⟩
      (by decide) (by decide) (by decide)⟩

/-- C10 (member chain). For every member-access expression the walker first
visits the target and then pushes the member token: the buffer afterwards is
the buffer before, followed by the tokens of the target, followed by the member
token if it is stored. For `a.b` with `a` at (3, 0, length 1) and the member
token at (3, 2, length 1) the buffer holds a variable token and then a member
token, the output data is `[3,0,1,0,0, 0,2,1,9,0]` for every result of `qsort`,
and the decoded positions are strictly increasing. -/
theorem member_chain (qsort : List SemanticToken → List SemanticToken) (b : TokenBuilder)
    (token : Token) (next target : ASTNode)
    (hdoc : IsQsortResult (collect doc_member).tokens (qsort (collect doc_member).tokens)) :
    traverse_node b (.NODE_EXPR_MEMBER token next target) =
      push_own (traverse_node b target) token TOKEN_TYPE_MEMBER 0 ∧
    (∃ of_target own,
      (traverse_node b target).tokens = b.tokens ++ of_target ∧
      (traverse_node b (.NODE_EXPR_MEMBER token next target)).tokens =
        b.tokens ++ of_target ++ own ∧
      (own = [] ∨
        own = [⟨wrap32 (token.line - 1), wrap32 (token.col - 1), token.len, 9, 0⟩])) ∧
    (collect doc_member).tokens = [⟨3, 0, 1, 0, 0⟩, ⟨3, 2, 1, 9, 0⟩] ∧
    semantic_tokens_data qsort doc_member = [3, 0, 1, 0, 0, 0, 2, 1, 9, 0] ∧
    (spec_decode 0 0 (semantic_tokens_data qsort doc_member)).Pairwise pos_lt := by
  have hdata : semantic_tokens_data qsort doc_member = [3, 0, 1, 0, 0, 0, 2, 1, 9, 0] := by
    have hsorted : qsort (collect doc_member).tokens = (collect doc_member).tokens :=
      qsort_result_of_strict (collect_valid doc_member) (by decide) hdoc
    simp only [semantic_tokens_data, sorted_tokens, hsorted]
    decide
  have hwalk : traverse_node b (.NODE_EXPR_MEMBER token next target) =
      push_own (traverse_node b target) token TOKEN_TYPE_MEMBER 0 := by
    simp only [traverse_node, walk, Bool.false_eq_true, if_false]
  refine ⟨hwalk, ?_, by decide, hdata, ?_⟩
  · obtain ⟨of_target, htarget⟩ := walk_appends target false b
    refine ⟨of_target, ?_⟩
    rw [hwalk]
    unfold push_own
    split
    · rw [builder_push_tokens]
      split
      · exact ⟨[], htarget, by rw [List.append_nil]; exact htarget, Or.inl rfl⟩
      · exact ⟨_, htarget, by rw [← htarget]; rfl, Or.inr rfl⟩
    · exact ⟨[], htarget, by rw [List.append_nil]; exact htarget, Or.inl rfl⟩
  · rw [hdata]
    decide

theorem member_chain_witness :
    IsQsortResult (collect doc_member).tokens (stable_qsort (collect doc_member).tokens) ∧
    traverse_node builder_init doc_member =
      push_own (traverse_node builder_init (.NODE_EXPR_VAR (tok 4 1 1) .null)) (tok 4 3 1)
        TOKEN_TYPE_MEMBER 0 ∧
    semantic_tokens_data stable_qsort doc_member = [3, 0, 1, 0, 0, 0, 2, 1, 9, 0] :=
  ⟨by decide,
    (member_chain stable_qsort builder_init (tok 4 3 1) .null (.NODE_EXPR_VAR (tok 4 1 1) .null)
      (by decide)).1,
    (member_chain stable_qsort builder_init (tok 4 3 1) .null (.NODE_EXPR_VAR (tok 4 1 1) .null)
      (by decide)).2.2.2.1⟩

/-- C11 (classification table). For every lexer token that is not the
sentinel and whose 0-based position `(line - 1, col - 1)` is non-negative (line
and column being C `int` values), a node of a highlighted kind carrying that
token makes the walker store exactly one own token, at `(line - 1, col - 1)`
with the length of the lexer token and the type index and modifier mask of the
table, next to the tokens of the children it visits: function (1, 1); variable
declaration (0, 0); constant (0, 2); type alias (7, 0); variable reference
(0, 0); struct, trait, impl, impl-of-trait (2, 0); field (9, 0); member access
(9, 0), after the target; string and char literal (4, 0); integer and float
literal (5, 0); enum declaration and enum variant (8, 0). -/
theorem classification_table (b : TokenBuilder) (token : Token) (next child : ASTNode)
    (arg_count : Int) (has_payload : Bool)
    (hty : token.type ≠ TokenType.TOK_EOF)
    (hl : 1 ≤ token.line) (hl2 : token.line ≤ 2147483647)
    (hc : 1 ≤ token.col) (hc2 : token.col ≤ 2147483647) :
    own_token token 1 1 = ⟨token.line - 1, token.col - 1, token.len, 1, 1⟩ ∧
    (traverse_node b (.NODE_FUNCTION token next arg_count child)).tokens =
      b.tokens ++ own_token token 1 1 :: emitted child ∧
    (traverse_node b (.NODE_VAR_DECL token next child)).tokens =
      b.tokens ++ own_token token 0 0 :: emitted child ∧
    (traverse_node b (.NODE_CONST token next child)).tokens =
      b.tokens ++ own_token token 0 2 :: emitted child ∧
    (traverse_node b (.NODE_TYPE_ALIAS token next)).tokens =
      b.tokens ++ [own_token token 7 0] ∧
    (traverse_node b (.NODE_EXPR_VAR token next)).tokens =
      b.tokens ++ [own_token token 0 0] ∧
    (traverse_node b (.NODE_STRUCT token next child)).tokens =
      b.tokens ++ own_token token 2 0 :: emitted child ∧
    (traverse_node b (.NODE_TRAIT token next child)).tokens =
      b.tokens ++ own_token token 2 0 :: emitted child ∧
    (traverse_node b (.NODE_IMPL token next child)).tokens =
      b.tokens ++ own_token token 2 0 :: emitted child ∧
    (traverse_node b (.NODE_IMPL_TRAIT token next child)).tokens =
      b.tokens ++ own_token token 2 0 :: emitted child ∧
    (traverse_node b (.NODE_FIELD token next)).tokens =
      b.tokens ++ [own_token token 9 0] ∧
    (traverse_node b (.NODE_EXPR_MEMBER token next child)).tokens =
      b.tokens ++ emitted child ++ [own_token token 9 0] ∧
    (traverse_node b (.NODE_EXPR_LITERAL token next LiteralKind.LITERAL_STRING)).tokens =
      b.tokens ++ [own_token token 4 0] ∧
    (traverse_node b (.NODE_EXPR_LITERAL token next LiteralKind.LITERAL_CHAR)).tokens =
      b.tokens ++ [own_token token 4 0] ∧
    (traverse_node b (.NODE_EXPR_LITERAL token next LiteralKind.LITERAL_INT)).tokens =
      b.tokens ++ [own_token token 5 0] ∧
    (traverse_node b (.NODE_EXPR_LITERAL token next LiteralKind.LITERAL_FLOAT)).tokens =
      b.tokens ++ [own_token token 5 0] ∧
    (traverse_node b (.NODE_ENUM token next child)).tokens =
      b.tokens ++ own_token token 8 0 :: emitted child ∧
    (traverse_node b (.NODE_ENUM_VARIANT token next has_payload)).tokens =
      b.tokens ++ [own_token token 8 0] := by
  have hown : ∀ (b1 : TokenBuilder) (type modifiers : Int),
      (push_own b1 token type modifiers).tokens = b1.tokens ++ [own_token token type modifiers] :=
    fun b1 type modifiers => push_own_tokens b1 token type modifiers hty hl hl2 hc hc2
  have hpush : ∀ (b1 : TokenBuilder) (type modifiers : Int),
      (builder_push b1 (wrap32 (token.line - 1)) (wrap32 (token.col - 1)) token.len type
        modifiers).tokens = b1.tokens ++ [own_token token type modifiers] :=
    fun b1 type modifiers => builder_push_own_tokens b1 token type modifiers hl hl2 hc hc2
  have hchild : ∀ (type modifiers : Int),
      (walk child false (push_own b token type modifiers)).tokens =
        b.tokens ++ own_token token type modifiers :: emitted child := by
    intro type modifiers
    rw [walk_tokens_append, hown]
    simp [emitted, traverse_node]
  refine ⟨rfl, ?_, ?_, ?_, ?_, ?_, ?_, ?_, ?_, ?_, ?_, ?_, ?_, ?_, ?_, ?_, ?_, ?_⟩
  · simpa [traverse_node, walk, TOKEN_TYPE_FUNCTION] using hchild 1 1
  · simpa [traverse_node, walk, TOKEN_TYPE_VARIABLE] using hchild 0 0
  · simpa [traverse_node, walk, TOKEN_TYPE_VARIABLE] using hchild 0 2
  · simpa [traverse_node, walk, TOKEN_TYPE_TYPE] using hown b 7 0
  · simpa [traverse_node, walk, TOKEN_TYPE_VARIABLE] using hown b 0 0
  · simpa [traverse_node, walk, TOKEN_TYPE_STRUCT] using hchild 2 0
  · simpa [traverse_node, walk, TOKEN_TYPE_STRUCT] using hchild 2 0
  · simpa [traverse_node, walk, TOKEN_TYPE_STRUCT] using hchild 2 0
  · simpa [traverse_node, walk, TOKEN_TYPE_STRUCT] using hchild 2 0
  · simpa [traverse_node, walk, TOKEN_TYPE_MEMBER] using hown b 9 0
  · have h := hown (walk child false b) 9 0
    rw [walk_tokens_append] at h
    simpa [traverse_node, walk, TOKEN_TYPE_MEMBER, emitted] using h
  · simpa [traverse_node, walk, TOKEN_TYPE_STRING, hty] using hpush b 4 0
  · simpa [traverse_node, walk, TOKEN_TYPE_STRING, hty] using hpush b 4 0
  · simpa [traverse_node, walk, TOKEN_TYPE_NUMBER, hty] using hpush b 5 0
  · simpa [traverse_node, walk, TOKEN_TYPE_NUMBER, hty] using hpush b 5 0
  · simpa [traverse_node, walk, TOKEN_TYPE_ENUM] using hchild 8 0
  · simpa [traverse_node, walk, TOKEN_TYPE_ENUM] using hown b 8 0

theorem classification_table_witness :
    (tok 2 1 4).type ≠ TokenType.TOK_EOF ∧
    (traverse_node builder_init
      (.NODE_FUNCTION (tok 2 1 4) .null 0 (.NODE_EXPR_VAR (tok 3 7 1) .null))).tokens =
      builder_init.tokens ++
        own_token (tok 2 1 4) 1 1 :: emitted (.NODE_EXPR_VAR (tok 3 7 1) .null) ∧
    (traverse_node builder_init
      (.NODE_EXPR_MEMBER (tok 2 1 4) .null (.NODE_EXPR_VAR (tok 3 7 1) .null))).tokens =
      builder_init.tokens ++ emitted (.NODE_EXPR_VAR (tok 3 7 1) .null) ++
        [own_token (tok 2 1 4) 9 0] :=
  ⟨by decide,
    (classification_table builder_init (tok 2 1 4) .null (.NODE_EXPR_VAR (tok 3 7 1) .null) 0
      false (by decide) (by decide) (by decide) (by decide) (by decide)).2.1,
    (classification_table builder_init (tok 2 1 4) .null (.NODE_EXPR_VAR (tok 3 7 1) .null) 0
      false (by decide) (by decide) (by decide) (by decide) (by decide)).2.2.2.2.2.2.2.2.2.2.2.1⟩

/-- C12 fails on the code. The cases of `traverse_node` for struct, trait,
impl, impl-of-trait and enum call `traverse_node` once on the head of the
member, method or variant list and never follow `next`: for the enum
declaration `doc_enum`, whose variant list has three located variants, the
buffer holds two enum tokens (the declaration and the first variant), not
four, and for the struct `doc_struct` with two fields it holds the struct
token and the first field only. -/
theorem member_lists_head_only :
    (chain (.NODE_ENUM_VARIANT (tok 2 5 3)
      (.NODE_ENUM_VARIANT (tok 3 5 5) (.NODE_ENUM_VARIANT (tok 4 5 4) .null false) false)
      false)).length = 3 ∧
    (collect doc_enum).tokens = [⟨0, 5, 5, 8, 0⟩, ⟨1, 4, 3, 8, 0⟩] ∧
    semantic_tokens_data stable_qsort doc_enum = [0, 5, 5, 8, 0, 1, 4, 3, 8, 0] ∧
    (collect doc_struct).tokens = [⟨0, 7, 5, 2, 0⟩, ⟨1, 4, 1, 9, 0⟩] := by
  decide

/-- C13 fails on the code. The root case calls `traverse_node` once on
`root.children` and never follows `next`: for `doc_root`, whose declaration
chain holds two functions, the buffer holds the token of the first function
only, while the concatenation over the chain has two tokens. -/
theorem root_walks_first_declaration_only :
    (chain two_functions).length = 2 ∧
    ((chain two_functions).map emitted).flatten = [⟨0, 3, 1, 1, 1⟩, ⟨2, 3, 1, 1, 1⟩] ∧
    emitted doc_root = [⟨0, 3, 1, 1, 1⟩] ∧
    (collect doc_root).tokens = [⟨0, 3, 1, 1, 1⟩] ∧
    semantic_tokens_data stable_qsort doc_root = [0, 3, 1, 1, 1] := by
  decide

/-- C14 (outermost chain iteration). For every AST pointer of a resolved
document, the buffer before sorting is the concatenation, in chain order, of
the tokens `traverse_node` stores for each node of the `next` chain that starts
at the pointer; what `traverse_node` stores for a node is appended to whatever
the buffer held. -/
theorem outermost_chain_iteration (ast : ASTNode) (b : TokenBuilder) (node : ASTNode) :
    (collect ast).tokens = ((chain ast).map emitted).flatten ∧
    (traverse_node b node).tokens = b.tokens ++ emitted node := by
  refine ⟨?_, traverse_node_tokens b node⟩
  unfold collect
  rw [traverse_chain_tokens]
  simp [builder_init]

/-- C15 (sequence nodes are walked in order). For every block the walker
stores the tokens of each statement of the statement chain, in chain order;
for every call expression it stores the tokens of the callee and then those
of each argument of the argument chain, in chain order; neither node stores
a token of its own. -/
theorem sequence_nodes_in_order (b : TokenBuilder) (token : Token)
    (next statements callee args : ASTNode) :
    (traverse_node b (.NODE_BLOCK token next statements)).tokens =
      b.tokens ++ ((chain statements).map emitted).flatten ∧
    (traverse_node b (.NODE_EXPR_CALL token next callee args)).tokens =
      b.tokens ++ emitted callee ++ ((chain args).map emitted).flatten := by
  constructor
  · simp only [traverse_node, walk, Bool.false_eq_true, if_false]
    exact walk_chain_tokens statements b
  · simp only [traverse_node, walk, Bool.false_eq_true, if_false]
    rw [walk_chain_tokens, walk_tokens_append]
    rfl

/-- C18 (unrecognised kinds are skipped). For every node of a kind without
a case in `traverse_node`, root apart, whatever its children and its `next`
sibling are, `traverse_node` returns the buffer as it was. -/
theorem unrecognised_kinds_skipped (b : TokenBuilder) (kind : Nat) (token : Token)
    (next child0 child1 child2 : ASTNode) :
    traverse_node b (.NODE_OTHER kind token next child0 child1 child2) = b := by
  simp only [traverse_node, walk, Bool.false_eq_true, if_false]

/-- C19 (dedup rule equivalence). For every token sequence, sorted or not,
the entries kept by the code's rule (drop an entry whose line and column equal
those of the array entry right before it) are exactly the entries kept by the
specification's rule (drop an entry whose line and column equal those of the
entry kept last). -/
theorem dedup_rule_equivalence (ts : List SemanticToken) :
    survivors none ts = spec_dedup none ts := by
  cases ts with
  | nil => rfl
  | cons t rest =>
    simp only [survivors, spec_dedup, skipped]
    rw [if_neg (by simp), survivors_eq_spec_dedup rest t t rfl rfl]

/-- C16 as amended. `builder_push` with `line >= 0` and `col >= 0` yields the
old token sequence followed by exactly the new entry, so the count grows by one
and the earlier entries stay, whether the capacity is doubled or not; the
capacity afterwards is the old one, or its double (wrapped to 32 bits) when the
buffer was full. When the buffer satisfied its invariant before the push
(positive capacity, count at most the capacity, as `builder_init` sets it up)
and held fewer than 2^30 entries, the invariant holds afterwards, in particular
`count <= capacity`. `traverse_node` on any node only appends: the buffer
before the call is a beginning of the buffer after it. -/
theorem append_only_buffer (b : TokenBuilder) (line col length type modifiers : Int)
    (node : ASTNode) (hl : 0 ≤ line) (hc : 0 ≤ col) :
    (builder_push b line col length type modifiers).tokens =
      b.tokens ++ [⟨line, col, length, type, modifiers⟩] ∧
    (builder_push b line col length type modifiers).count = b.count + 1 ∧
    ((builder_push b line col length type modifiers).capacity =
        (if b.count ≥ b.capacity then wrap32 (b.capacity * 2) else b.capacity)) ∧
    (builder_wf b → b.count < 1073741824 →
      builder_wf (builder_push b line col length type modifiers) ∧
      (builder_push b line col length type modifiers).count ≤
        (builder_push b line col length type modifiers).capacity) ∧
    builder_wf builder_init ∧
    (∃ suffix, (traverse_node b node).tokens = b.tokens ++ suffix) := by
  have htok : (builder_push b line col length type modifiers).tokens =
      b.tokens ++ [⟨line, col, length, type, modifiers⟩] := by
    rw [builder_push_tokens, if_neg (by omega)]
  have hcount := builder_push_count b line col length type modifiers hl hc
  have hcap := builder_push_capacity b line col length type modifiers hl hc
  refine ⟨htok, hcount, hcap, ?_, by decide, walk_appends node false b⟩
  intro hwf hlt
  unfold builder_wf at hwf ⊢
  rw [hcount, hcap]
  by_cases hfull : b.count ≥ b.capacity
  · rw [if_pos hfull, wrap32_eq_self (by omega) (by omega)]
    omega
  · rw [if_neg hfull]
    omega

theorem append_only_buffer_witness :
    ((0 : Int) ≤ 3 ∧ (0 : Int) ≤ 0) ∧
    builder_wf full_buffer ∧ full_buffer.count < 1073741824 ∧
    full_buffer.count ≥ full_buffer.capacity ∧
    (builder_push full_buffer 3 0 1 9 0).tokens = full_buffer.tokens ++ [⟨3, 0, 1, 9, 0⟩] ∧
    (builder_push full_buffer 3 0 1 9 0).count = 4097 ∧
    (builder_push full_buffer 3 0 1 9 0).capacity = 8192 ∧
    builder_wf (builder_push full_buffer 3 0 1 9 0) ∧
    (builder_push full_buffer 3 0 1 9 0).count ≤ (builder_push full_buffer 3 0 1 9 0).capacity :=
  have hwf : builder_wf full_buffer := by
    unfold builder_wf
    rw [full_buffer_count]
    decide
  have hlt : full_buffer.count < 1073741824 := by
    rw [full_buffer_count]
    decide
  have hfull : full_buffer.count ≥ full_buffer.capacity := by
    rw [full_buffer_count]
    decide
  have h := append_only_buffer full_buffer 3 0 1 9 0 doc_member (by decide) (by decide)
  ⟨by decide, hwf, hlt, hfull, h.1,
    by rw [h.2.1, full_buffer_count]; rfl,
    by rw [h.2.2.1, if_pos hfull]; rfl,
    (h.2.2.2.1 hwf hlt).1, (h.2.2.2.1 hwf hlt).2⟩

/-- C16 as stated fails. The full buffer `huge_buffer` satisfies the invariant
(capacity 2^30, 2^30 entries); a push with line 0 and column 0 doubles the
capacity, which wraps to -2^31, so afterwards the count 2^30 + 1 exceeds the
capacity. And for the value `overfull_buffer` (three entries, capacity 1) the
push leaves four entries with a capacity of 2. -/
theorem count_exceeds_capacity_counterexample :
    builder_wf huge_buffer ∧
    (builder_push huge_buffer 0 0 1 0 0).count = 1073741825 ∧
    (builder_push huge_buffer 0 0 1 0 0).capacity = -2147483648 ∧
    ¬ ((builder_push huge_buffer 0 0 1 0 0).count ≤
        (builder_push huge_buffer 0 0 1 0 0).capacity) ∧
    (builder_push overfull_buffer 0 0 1 0 0).count = 4 ∧
    (builder_push overfull_buffer 0 0 1 0 0).capacity = 2 ∧
    ¬ ((builder_push overfull_buffer 0 0 1 0 0).count ≤
        (builder_push overfull_buffer 0 0 1 0 0).capacity) := by
  have hfull : huge_buffer.count ≥ huge_buffer.capacity := by
    rw [huge_buffer_count]
    decide
  have hcount : (builder_push huge_buffer 0 0 1 0 0).count = 1073741825 := by
    rw [builder_push_count huge_buffer 0 0 1 0 0 (by decide) (by decide), huge_buffer_count]
    rfl
  have hcap : (builder_push huge_buffer 0 0 1 0 0).capacity = -2147483648 := by
    rw [builder_push_capacity huge_buffer 0 0 1 0 0 (by decide) (by decide), if_pos hfull]
    rfl
  refine ⟨?_, hcount, hcap, ?_, by decide, by decide, by decide⟩
  · unfold builder_wf
    rw [huge_buffer_count]
    decide
  · rw [hcount, hcap]
    decide

/-- C17 (sentinel nodes still recurse). For a function, variable declaration,
constant, struct, trait, impl, impl-of-trait, enum or member access whose own
lexer token is the sentinel `TOK_EOF`, `traverse_node` stores nothing for the
node itself and does exactly what it does for the child it visits; so it
stores the tokens of that child, the same ones that follow (for a member
access, precede) the own token when the node carries a valid token `token2`
instead. -/
theorem sentinel_nodes_recurse (b : TokenBuilder) (token token2 : Token) (next child : ASTNode)
    (arg_count : Int) (hty : token.type = TokenType.TOK_EOF)
    (hty2 : token2.type ≠ TokenType.TOK_EOF)
    (hl : 1 ≤ token2.line) (hl2 : token2.line ≤ 2147483647)
    (hc : 1 ≤ token2.col) (hc2 : token2.col ≤ 2147483647) :
    (traverse_node b (.NODE_FUNCTION token next arg_count child) = traverse_node b child ∧
      (traverse_node b (.NODE_FUNCTION token2 next arg_count child)).tokens =
        b.tokens ++ own_token token2 1 1 :: emitted child) ∧
    (traverse_node b (.NODE_VAR_DECL token next child) = traverse_node b child ∧
      (traverse_node b (.NODE_VAR_DECL token2 next child)).tokens =
        b.tokens ++ own_token token2 0 0 :: emitted child) ∧
    (traverse_node b (.NODE_CONST token next child) = traverse_node b child ∧
      (traverse_node b (.NODE_CONST token2 next child)).tokens =
        b.tokens ++ own_token token2 0 2 :: emitted child) ∧
    (traverse_node b (.NODE_STRUCT token next child) = traverse_node b child ∧
      (traverse_node b (.NODE_STRUCT token2 next child)).tokens =
        b.tokens ++ own_token token2 2 0 :: emitted child) ∧
    (traverse_node b (.NODE_TRAIT token next child) = traverse_node b child ∧
      (traverse_node b (.NODE_TRAIT token2 next child)).tokens =
        b.tokens ++ own_token token2 2 0 :: emitted child) ∧
    (traverse_node b (.NODE_IMPL token next child) = traverse_node b child ∧
      (traverse_node b (.NODE_IMPL token2 next child)).tokens =
        b.tokens ++ own_token token2 2 0 :: emitted child) ∧
    (traverse_node b (.NODE_IMPL_TRAIT token next child) = traverse_node b child ∧
      (traverse_node b (.NODE_IMPL_TRAIT token2 next child)).tokens =
        b.tokens ++ own_token token2 2 0 :: emitted child) ∧
    (traverse_node b (.NODE_ENUM token next child) = traverse_node b child ∧
      (traverse_node b (.NODE_ENUM token2 next child)).tokens =
        b.tokens ++ own_token token2 8 0 :: emitted child) ∧
    (traverse_node b (.NODE_EXPR_MEMBER token next child) = traverse_node b child ∧
      (traverse_node b (.NODE_EXPR_MEMBER token2 next child)).tokens =
        b.tokens ++ emitted child ++ [own_token token2 9 0]) ∧
    (traverse_node b child).tokens = b.tokens ++ emitted child := by
  have heof : ∀ (b1 : TokenBuilder) (type modifiers : Int),
      push_own b1 token type modifiers = b1 :=
    fun b1 type modifiers => push_own_eof b1 token type modifiers hty
  have hown : ∀ (b1 : TokenBuilder) (type modifiers : Int),
      (push_own b1 token2 type modifiers).tokens =
        b1.tokens ++ [own_token token2 type modifiers] :=
    fun b1 type modifiers => push_own_tokens b1 token2 type modifiers hty2 hl hl2 hc hc2
  have hchild : ∀ (type modifiers : Int),
      (walk child false (push_own b token2 type modifiers)).tokens =
        b.tokens ++ own_token token2 type modifiers :: emitted child := by
    intro type modifiers
    rw [walk_tokens_append, hown]
    simp [emitted, traverse_node]
  refine ⟨⟨?_, ?_⟩, ⟨?_, ?_⟩, ⟨?_, ?_⟩, ⟨?_, ?_⟩, ⟨?_, ?_⟩, ⟨?_, ?_⟩, ⟨?_, ?_⟩, ⟨?_, ?_⟩,
    ⟨?_, ?_⟩, traverse_node_tokens b child⟩
  · simp [traverse_node, walk, heof]
  · simpa [traverse_node, walk, TOKEN_TYPE_FUNCTION] using hchild 1 1
  · simp [traverse_node, walk, heof]
  · simpa [traverse_node, walk, TOKEN_TYPE_VARIABLE] using hchild 0 0
  · simp [traverse_node, walk, heof]
  · simpa [traverse_node, walk, TOKEN_TYPE_VARIABLE] using hchild 0 2
  · simp [traverse_node, walk, heof]
  · simpa [traverse_node, walk, TOKEN_TYPE_STRUCT] using hchild 2 0
  · simp [traverse_node, walk, heof]
  · simpa [traverse_node, walk, TOKEN_TYPE_STRUCT] using hchild 2 0
  · simp [traverse_node, walk, heof]
  · simpa [traverse_node, walk, TOKEN_TYPE_STRUCT] using hchild 2 0
  · simp [traverse_node, walk, heof]
  · simpa [traverse_node, walk, TOKEN_TYPE_STRUCT] using hchild 2 0
  · simp [traverse_node, walk, heof]
  · simpa [traverse_node, walk, TOKEN_TYPE_ENUM] using hchild 8 0
  · simp [traverse_node, walk, heof]
  · have h := hown (walk child false b) 9 0
    rw [walk_tokens_append] at h
    simpa [traverse_node, walk, TOKEN_TYPE_MEMBER, emitted] using h

theorem sentinel_nodes_recurse_witness :
    (⟨TokenType.TOK_EOF, 2, 1, 4⟩ : Token).type = TokenType.TOK_EOF ∧
    (tok 2 1 4).type ≠ TokenType.TOK_EOF ∧
    traverse_node builder_init
        (.NODE_FUNCTION ⟨TokenType.TOK_EOF, 2, 1, 4⟩ .null 0 (.NODE_EXPR_VAR (tok 3 7 1) .null)) =
      traverse_node builder_init (.NODE_EXPR_VAR (tok 3 7 1) .null) ∧
    (traverse_node builder_init
        (.NODE_FUNCTION (tok 2 1 4) .null 0 (.NODE_EXPR_VAR (tok 3 7 1) .null))).tokens =
      builder_init.tokens ++
        own_token (tok 2 1 4) 1 1 :: emitted (.NODE_EXPR_VAR (tok 3 7 1) .null) :=
  ⟨by decide, by decide,
    (sentinel_nodes_recurse builder_init ⟨TokenType.TOK_EOF, 2, 1, 4⟩ (tok 2 1 4) .null
      (.NODE_EXPR_VAR (tok 3 7 1) .null) 0 (by decide) (by decide) (by decide) (by decide)
      (by decide) (by decide)).1⟩

/-- C20 (comparator soundness). For tokens stored in the buffer (line and
column non-negative C `int` values) the two subtractions of `compare_tokens`
stay within a C `int`, so the result is the plain difference; it is negative,
zero or positive exactly when the first position is lexicographically less
than, equal to or greater than the second; length, type and modifiers do not
enter the result; and the induced relation is a total preorder: the sign
flips when the arguments are swapped, and `<= 0` is transitive and total. -/
theorem comparator_soundness (a b c : SemanticToken) (n1 t1 m1 n2 t2 m2 : Int)
    (ha : valid_pos a) (hb : valid_pos b) (hc : valid_pos c) :
    (-2147483648 ≤ a.line - b.line ∧ a.line - b.line < 2147483648 ∧
      -2147483648 ≤ a.col - b.col ∧ a.col - b.col < 2147483648) ∧
    compare_tokens a b = (if a.line ≠ b.line then a.line - b.line else a.col - b.col) ∧
    (compare_tokens a b < 0 ↔ pos_lt a b) ∧
    (compare_tokens a b = 0 ↔ (a.line = b.line ∧ a.col = b.col)) ∧
    (0 < compare_tokens a b ↔ pos_lt b a) ∧
    compare_tokens ⟨a.line, a.col, n1, t1, m1⟩ ⟨b.line, b.col, n2, t2, m2⟩ =
      compare_tokens a b ∧
    (compare_tokens a b < 0 ↔ 0 < compare_tokens b a) ∧
    (compare_tokens a b = 0 ↔ compare_tokens b a = 0) ∧
    (compare_tokens a b ≤ 0 ∨ compare_tokens b a ≤ 0) ∧
    (compare_tokens a b ≤ 0 → compare_tokens b c ≤ 0 → compare_tokens a c ≤ 0) := by
  have hplain : ∀ (x y : SemanticToken), valid_pos x → valid_pos y →
      compare_tokens x y = (if x.line ≠ y.line then x.line - y.line else x.col - y.col) := by
    intro x y hx hy
    unfold valid_pos at hx hy
    unfold compare_tokens
    rw [wrap32_eq_self (x := x.line - y.line) (by omega) (by omega),
      wrap32_eq_self (x := x.col - y.col) (by omega) (by omega)]
  have hab := hplain a b ha hb
  have hba := hplain b a hb ha
  have hbc := hplain b c hb hc
  have hac := hplain a c ha hc
  unfold valid_pos at ha hb hc
  refine ⟨by omega, hab, ?_, ?_, ?_, rfl, ?_, ?_, ?_, ?_⟩
  · rw [hab]; unfold pos_lt; split <;> omega
  · rw [hab]; split <;> omega
  · rw [hab]; unfold pos_lt; split <;> omega
  · rw [hab, hba]; split <;> split <;> omega
  · rw [hab, hba]; split <;> split <;> omega
  · rw [hab, hba]; split <;> split <;> omega
  · rw [hab, hbc, hac]; split <;> split <;> split <;> omega

theorem comparator_soundness_witness :
    valid_pos ⟨2, 8, 1, 0, 0⟩ ∧ valid_pos ⟨2, 1, 1, 5, 0⟩ ∧ valid_pos ⟨0, 0, 2, 7, 0⟩ ∧
    compare_tokens ⟨2, 8, 1, 0, 0⟩ ⟨2, 1, 1, 5, 0⟩ =
      (if (2 : Int) ≠ 2 then (2 : Int) - 2 else 8 - 1) ∧
    (compare_tokens ⟨2, 8, 1, 0, 0⟩ ⟨2, 1, 1, 5, 0⟩ < 0 ↔
      pos_lt ⟨2, 8, 1, 0, 0⟩ ⟨2, 1, 1, 5, 0⟩) :=
  ⟨by decide, by decide, by decide,
    (comparator_soundness ⟨2, 8, 1, 0, 0⟩ ⟨2, 1, 1, 5, 0⟩ ⟨0, 0, 2, 7, 0⟩ 4 4 4 6 6 6
      (by decide) (by decide) (by decide)).2.1,
    (comparator_soundness ⟨2, 8, 1, 0, 0⟩ ⟨2, 1, 1, 5, 0⟩ ⟨0, 0, 2, 7, 0⟩ 4 4 4 6 6 6
      (by decide) (by decide) (by decide)).2.2.1⟩

end ZenC.LspSemantic
